import Mathlib

/-!
Verification of the Worm Escape solvability engine and reverse-construction
level generator.

The definitions below are a shallow embedding of the Python sources:
  worm_escape/constants.py     (DIR_DELTA)
  worm_escape/entities.py      (Worm)
  worm_escape/level_manager.py (load_level)
  worm_escape/solver.py        (build_occupancy, first_blocker,
                                build_dependency_graph, is_solvable)
  generator.py                 (exit_corridor, pick_head, grow_body,
                                generate_level)

Python machine integers are modelled as Int, grid strings as List String,
dicts as association lists (insertion order preserved), Python sets of
cells as lists used only through membership, and the process-wide
random module as an explicit oracle state (RNG) threaded through the
generator exactly where the Python code consumes randomness.
Unbounded while loops that walk one cell per iteration are given an
explicit fuel that dominates the walk length.
-/

set_option maxHeartbeats 8000000
set_option maxRecDepth 100000
set_option synthInstance.maxSize 512

namespace WormEscape

/-- The four movement directions of constants.DIR_DELTA. -/
inductive Dir where
  | up
  | down
  | left
  | right
deriving DecidableEq, Repr

/-- Row / column delta for each direction (constants.DIR_DELTA). -/
def DIR_DELTA : Dir → Int × Int
  | .up => (-1, 0)
  | .down => (1, 0)
  | .left => (0, -1)
  | .right => (0, 1)

/-- The string form of a direction, as stored in level metadata. -/
def dirStr : Dir → String
  | .up => "up"
  | .down => "down"
  | .left => "left"
  | .right => "right"

/-- A grid cell: (row, column). -/
abbrev Pos := Int × Int

/-- The bounds check 0 <= r < rows and 0 <= c < cols used throughout. -/
def inB (rows cols : Int) (p : Pos) : Prop :=
  0 ≤ p.1 ∧ p.1 < rows ∧ 0 ≤ p.2 ∧ p.2 < cols

instance (rows cols : Int) (p : Pos) : Decidable (inB rows cols p) := by
  unfold inB; infer_instance

/-- entities.Worm: id, segments ordered tail to head, direction, color. -/
structure Worm where
  worm_id : Char
  segments : List Pos
  direction : Dir
  color : String
deriving DecidableEq, Repr

/-- Worm.head property: the last segment (Python segments[-1]). -/
def Worm.head (w : Worm) : Pos := w.segments.getLastD (0, 0)

/-! ## Corridor / path tracer -/

/-- Fuel that dominates the length of any single-direction walk that stays
inside an rows x cols grid. -/
def corrFuel (rows cols : Int) : Nat := (rows + cols).toNat + 1

/-- One-directional walk collecting in-bounds cells, from generator.py
_exit_corridor: step by the direction delta while inside the grid. -/
def corridorAux : Nat → Int → Int → Dir → Int → Int → List Pos
  | 0, _, _, _, _, _ => []
  | fuel+1, r, c, d, rows, cols =>
    let r' := r + (DIR_DELTA d).1
    let c' := c + (DIR_DELTA d).2
    if inB rows cols (r', c') then
      (r', c') :: corridorAux fuel r' c' d rows cols
    else []

/-- generator._exit_corridor: every cell between the head (exclusive) and
the grid edge in the forward direction.  The Python function returns a
set; the cells are collected here in walk order and used only through
membership. -/
def exit_corridor (head_r head_c : Int) (direction : Dir) (rows cols : Int) : List Pos :=
  corridorAux (corrFuel rows cols) head_r head_c direction rows cols

/-! ## Solver internals (worm_escape/solver.py) -/

/-- solver._build_occupancy: cell to worm id map built by successive dict
assignment over every worm and segment. -/
def build_occupancy (worms : List Worm) : Pos → Option Char :=
  worms.foldl
    (fun occ w =>
      w.segments.foldl (fun o seg => fun p => if p = seg then some w.worm_id else o p) occ)
    (fun _ => none)

/-- Loop body of solver._first_blocker, with fuel for the while-True walk. -/
def firstBlockerAux : Nat → Char → (Pos → Option Char) → Dir → Int → Int → Int → Int → Option Char
  | 0, _, _, _, _, _, _, _ => none
  | fuel+1, wid, occ, d, rows, cols, r, c =>
    let r' := r + (DIR_DELTA d).1
    let c' := c + (DIR_DELTA d).2
    if inB rows cols (r', c') then
      match occ (r', c') with
      | some owner =>
        if owner ≠ wid then some owner
        else firstBlockerAux fuel wid occ d rows cols r' c'
      | none => firstBlockerAux fuel wid occ d rows cols r' c'
    else none

/-- solver._first_blocker: trace forward from the worm head along its
direction; return the id of the first other worm in the path, or none if
the path is clear to the edge. -/
def first_blocker (w : Worm) (occ : Pos → Option Char) (rows cols : Int) : Option Char :=
  firstBlockerAux (corrFuel rows cols) w.worm_id occ w.direction rows cols w.head.1 w.head.2

/-- solver._build_dependency_graph: for each worm (in list order) the set of
ids blocking it; at most one id is recorded, the nearest blocker. -/
def build_dependency_graph (worms : List Worm) (rows cols : Int) : List (Char × List Char) :=
  let occ := build_occupancy worms
  worms.map (fun w =>
    (w.worm_id,
      match first_blocker w occ rows cols with
      | some b => [b]
      | none => []))

/-! ## Stable insertion sort (model of Python sorted / list.sort) -/

/-- Insert an element in front of the first list element it is le-related
to; keeps earlier equal elements earlier, like Python stable sorting. -/
def ordIns (le : α → α → Bool) (a : α) : List α → List α
  | [] => [a]
  | b :: l => if le a b then a :: b :: l else b :: ordIns le a l

/-- Stable insertion sort, modelling Python sorted() and list.sort(). -/
def insSort (le : α → α → Bool) : List α → List α
  | [] => []
  | a :: l => ordIns le a (insSort le l)

/-- Total order on worm ids (Python sorts one-character strings by code
point). -/
def charLe (a b : Char) : Bool := Nat.ble a.toNat b.toNat

/-- Python sorted() on a list of worm ids. -/
def sortChars (l : List Char) : List Char := insSort charLe l

/-! ## Solver report text -/

/-- Join worm ids with a separator. -/
def joinIds (sep : String) (l : List Char) : String :=
  String.intercalate sep (l.map Char.toString)

/-- Comma-joined sorted blocker set, as in ", ".join(sorted(deps)). -/
def depsStr (deps : List Char) : String := joinIds ", " (sortChars deps)

/-- Report line for a blocked worm inside a deadlock report. -/
def blockedLine (wid : Char) (deps : List Char) : String :=
  "  [" ++ Char.toString wid ++ "] blocked by: " ++ depsStr deps

/-- Report line for a worm still blocked during a successful round. -/
def stillBlockedLine (wid : Char) (deps : List Char) : String :=
  "  [" ++ Char.toString wid ++ "] still blocked by: " ++ depsStr deps

/-- The deadlock block appended to the report when no worm is free. -/
def deadlockLines (round_num : Nat) (graph : List (Char × List Char)) (worms : List Worm) :
    List String :=
  ["Round " ++ toString round_num ++ ": DEADLOCK"]
    ++ (sortChars (graph.map Prod.fst)).map
        (fun wid => blockedLine wid ((graph.lookup wid).getD []))
    ++ [""]
    ++ ["Remaining worms (" ++ toString worms.length ++ "): "
          ++ joinIds ", " (sortChars (worms.map Worm.worm_id))]
    ++ ["Verdict: UNSOLVABLE — cyclic dependency detected."]

/-- Report line naming the worms extracted in a round. -/
def extractLine (round_num : Nat) (free : List Char) : String :=
  "Round " ++ toString round_num ++ ": extract "
    ++ String.intercalate ", " (free.map (fun wid => "[" ++ Char.toString wid ++ "]"))

/-- Final report lines of a solvable level. -/
def solvableLines (order : List Char) (round_num : Nat) : List String :=
  ["",
   "Extraction order: " ++ joinIds " → " order ++ "  (" ++ toString round_num
     ++ " round" ++ (if round_num ≠ 1 then "s" else "") ++ ")",
   "Verdict: SOLVABLE"]

/-- The while-loop of solver.is_solvable.  State carried exactly as in the
Python locals: remaining worms, round counter, report lines, cumulative
extraction order; the per-round free sets are also accumulated (the
Python loop computes the free set each round).  Fuel bounds the number of
rounds; each successful round removes at least one worm, so
worms.length + 1 fuel is never exhausted. -/
def solveLoop : Nat → List Worm → Int → Int → Nat → List String → List Char →
    List (List Char) → Bool × List String × List Char × List (List Char)
  | 0, _, _, _, _, report, order, rounds => (false, report, order, rounds)
  | fuel+1, worms, rows, cols, round_num, report, order, rounds =>
    match worms with
    | [] => (true, report ++ solvableLines order round_num, order, rounds)
    | _ :: _ =>
      let rn := round_num + 1
      let graph := build_dependency_graph worms rows cols
      let free := sortChars ((graph.filter (fun e => e.2 = [])).map Prod.fst)
      if free = [] then
        (false, report ++ deadlockLines rn graph worms, order, rounds)
      else
        let blocked := sortChars ((graph.filter (fun e => e.2 ≠ [])).map Prod.fst)
        let report' := report ++ [extractLine rn free]
          ++ blocked.map (fun wid => stillBlockedLine wid ((graph.lookup wid).getD []))
        solveLoop fuel (worms.filter (fun w => ¬ w.worm_id ∈ free)) rows cols rn
          report' (order ++ free) (rounds ++ [free])

/-! ## Level data and parser (worm_escape/level_manager.py) -/

/-- Per-worm metadata from the level dictionary. -/
structure WormMeta where
  color : Option String
  direction : String
deriving DecidableEq, Repr

/-- The level-data dictionary schema consumed by load_level. -/
structure LevelData where
  name : Option String
  rows : Int
  cols : Int
  grid : List String
  worms : List (Char × WormMeta)
deriving DecidableEq, Repr

/-- Row-major enumeration of the text grid: ((row, col), character), as
produced by the two nested enumerate loops of load_level. -/
def scanCells (grid : List String) : List (Pos × Char) :=
  grid.enum.flatMap (fun rrow =>
    rrow.2.data.enum.map (fun cch => (((rrow.1 : Int), (cch.1 : Int)), cch.2)))

/-- One cell_map entry: the optional head cell and the body cells in scan
order. -/
abbrev CMEntry := Option Pos × List Pos

/-- The cell_map dictionary: worm letter to entry, insertion ordered. -/
abbrev CellMap := List (Char × CMEntry)

/-- Dictionary read with setdefault default value. -/
def cmGet (cm : CellMap) (wid : Char) : CMEntry := (cm.lookup wid).getD (none, [])

/-- Dictionary write: replace in place when the key exists, else append
(Python setdefault followed by in-place mutation). -/
def cmSet (cm : CellMap) (wid : Char) (e : CMEntry) : CellMap :=
  if (cm.lookup wid).isSome then
    cm.map (fun kv => if kv.1 = wid then (wid, e) else kv)
  else
    cm ++ [(wid, e)]

/-- Left fold over a list where the step can raise, as a Python for-loop
over cells whose body may raise. -/
def foldlExcept (f : σ → α → Except String σ) : σ → List α → Except String σ
  | s, [] => .ok s
  | s, x :: xs =>
    match f s x with
    | .error e => .error e
    | .ok s2 => foldlExcept f s2 xs

/-- Effectful map where the element action can raise, as a Python for-loop
appending to a result list whose body may raise. -/
def mapMExcept (f : α → Except String β) : List α → Except String (List β)
  | [] => .ok []
  | x :: xs =>
    match f x with
    | .error e => .error e
    | .ok b =>
      match mapMExcept f xs with
      | .error e => .error e
      | .ok bs => .ok (b :: bs)

/-- Step 1 of load_level for one scanned cell: skip blanks, record an
uppercase character as the head (raising on a duplicate head) and a
lowercase character as a body cell. -/
def scanStep (cm : CellMap) (pc : Pos × Char) : Except String CellMap :=
  let ch := pc.2
  if ch = '.' ∨ ch = ' ' then .ok cm
  else
    let wid := ch.toUpper
    let entry := cmGet cm wid
    if ch.isUpper then
      match entry.1 with
      | some _ =>
        .error ("Worm '" ++ Char.toString wid ++ "': multiple heads found on the grid.")
      | none => .ok (cmSet cm wid (some pc.1, entry.2))
    else .ok (cmSet cm wid (entry.1, entry.2 ++ [pc.1]))

/-- The leading-edge violation test of load_level, written with the same
direction-string comparisons as the Python condition. -/
def leViol (direction : String) (head : Pos) (p : Pos) : Bool :=
  decide ((direction = "left" ∧ p.2 < head.2)
    ∨ (direction = "right" ∧ head.2 < p.2)
    ∨ (direction = "up" ∧ p.1 < head.1)
    ∨ (direction = "down" ∧ head.1 < p.1))

/-- The sort_keys dictionary lookup: known directions give a key, any other
string raises KeyError. -/
def parseDir (s : String) : Except String Dir :=
  if s = "right" then .ok .right
  else if s = "left" then .ok .left
  else if s = "down" then .ok .down
  else if s = "up" then .ok .up
  else .error ("KeyError: " ++ s)

/-- Comparison realising the Python sort key for each direction (ascending
column, descending column, ascending row, descending row). -/
def sortKeyLe (d : Dir) (p q : Pos) : Bool :=
  match d with
  | .right => decide (p.2 ≤ q.2)
  | .left => decide (-p.2 ≤ -q.2)
  | .down => decide (p.1 ≤ q.1)
  | .up => decide (-p.1 ≤ -q.1)

/-- Steps 2 and 3 of load_level for a single metadata entry: look up the
scanned cells, require a head, check the leading-edge rule, resolve the
sort key, and build the Worm with tail-to-head sorted segments. -/
def buildWorm (cm : CellMap) (wm : Char × WormMeta) : Except String Worm :=
  let wid := wm.1
  match cm.lookup wid with
  | none =>
    .error ("Worm '" ++ Char.toString wid ++ "' declared in metadata but not found on grid.")
  | some info =>
    match info.1 with
    | none => .error ("Worm '" ++ Char.toString wid ++ "' has no head (uppercase) on grid.")
    | some head =>
      let direction := wm.2.direction
      let color := wm.2.color.getD "white"
      match info.2.find? (leViol direction head) with
      | some p =>
        .error ("Worm '" ++ Char.toString wid ++ "': head at (" ++ toString head.1 ++ ","
          ++ toString head.2 ++ ") faces " ++ direction ++ " but body at ("
          ++ toString p.1 ++ "," ++ toString p.2
          ++ ") is further in that direction.  The head must be at the leading edge of the worm.")
      | none =>
        match parseDir direction with
        | .error e => .error e
        | .ok d => .ok ⟨wid, insSort (sortKeyLe d) (info.2 ++ [head]), d, color⟩

/-- level_manager.load_level: parse a level dictionary into grid bounds, a
name, and the Worm objects (metadata order). -/
def load_level (ld : LevelData) : Except String (Int × Int × String × List Worm) :=
  match foldlExcept scanStep ([] : CellMap) (scanCells ld.grid) with
  | .error e => .error e
  | .ok cm =>
    match mapMExcept (buildWorm cm) ld.worms with
    | .error e => .error e
    | .ok worms => .ok (ld.rows, ld.cols, ld.name.getD "Unnamed Level", worms)

/-- solver.is_solvable: parse the level, then run the round-based peeling
loop; returns the verdict and the report lines. -/
def is_solvable (ld : LevelData) : Except String (Bool × List String) :=
  match load_level ld with
  | .error e => .error e
  | .ok (rows, cols, _, worms) =>
    let res := solveLoop (worms.length + 1) worms rows cols 0 [] [] []
    .ok (res.1, res.2.1)

/-- The verdict of is_solvable, none when the parser raises. -/
def solvableVerdict (ld : LevelData) : Option Bool :=
  match is_solvable ld with
  | .ok (b, _) => some b
  | .error _ => none

/-- The full solver loop state reached by is_solvable (verdict, report,
extraction order, per-round free sets); none when the parser raises. -/
def solveInternal (ld : LevelData) : Option (Bool × List String × List Char × List (List Char)) :=
  match load_level ld with
  | .error _ => none
  | .ok (rows, cols, _, worms) => some (solveLoop (worms.length + 1) worms rows cols 0 [] [] [])

/-- The cumulative extraction order computed by the solver loop. -/
def solveOrder (ld : LevelData) : Option (List Char) :=
  (solveInternal ld).map (fun r => r.2.2.1)

/-- The per-round free sets computed by the solver loop. -/
def solveRounds (ld : LevelData) : Option (List (List Char)) :=
  (solveInternal ld).map (fun r => r.2.2.2)

/-! ## Random oracle (model of the Python random module after seeding) -/

/-- The pseudo-random source: an oracle stream of naturals and a cursor.
Each primitive of the random module consumes successive stream values. -/
structure RNG where
  stream : Nat → Nat
  pos : Nat

/-- Draw one value below n (model of random._randbelow). -/
def randNat (rng : RNG) (n : Nat) : Nat × RNG :=
  (rng.stream rng.pos % n, ⟨rng.stream, rng.pos + 1⟩)

/-- random.randint(lo, hi): uniform integer in [lo, hi]. -/
def randInt (rng : RNG) (lo hi : Int) : Int × RNG :=
  let vr := randNat rng (hi - lo + 1).toNat
  (lo + (vr.1 : Int), vr.2)

/-- Swap two positions of a list (the tuple assignment in random.shuffle). -/
def listSwap (l : List α) (i j : Nat) : List α :=
  match l.get? i, l.get? j with
  | some a, some b => (l.set i b).set j a
  | _, _ => l

/-- The Fisher-Yates loop of random.shuffle: for i from n-1 down to 1,
swap position i with a random position j < i+1. -/
def shuffleAux (l : List α) (i : Nat) (rng : RNG) : List α × RNG :=
  match i with
  | 0 => (l, rng)
  | i+1 =>
    let jr := randNat rng (i + 2)
    shuffleAux (listSwap l (i + 1) jr.1) i jr.2

/-- random.shuffle on a list value. -/
def pyShuffle (l : List α) (rng : RNG) : List α × RNG :=
  shuffleAux l (l.length - 1) rng

/-- random.choice: a uniform element of a sequence (none on empty, where
Python raises). -/
def pyChoice (l : List α) (rng : RNG) : Option α × RNG :=
  let ir := randNat rng l.length
  (l.get? ir.1, ir.2)

/-! ## Generator (generator.py) -/

/-- The color cycle assigned to successive worms. -/
def COLOR_CYCLE : List String :=
  ["red", "blue", "green", "yellow", "magenta", "cyan", "white"]

/-- Inner depth loop of generator._pick_head: try each shuffled depth for
one edge candidate; accept the first unoccupied head whose whole exit
corridor avoids occupied cells. -/
def pickHeadDepths (edge_r edge_c : Int) (d : Dir) (rows cols : Int)
    (occupied : List Pos) : List Int → Option (Int × Int × Dir × List Pos)
  | [] => none
  | depth :: rest =>
    let hr := edge_r + depth * (-(DIR_DELTA d).1)
    let hc := edge_c + depth * (-(DIR_DELTA d).2)
    if ¬ inB rows cols (hr, hc) then pickHeadDepths edge_r edge_c d rows cols occupied rest
    else if (hr, hc) ∈ occupied then pickHeadDepths edge_r edge_c d rows cols occupied rest
    else
      let corridor := exit_corridor hr hc d rows cols
      if corridor.any (fun p => p ∈ occupied) then
        pickHeadDepths edge_r edge_c d rows cols occupied rest
      else some (hr, hc, d, corridor)

/-- Outer edge loop of generator._pick_head: shuffle the depth range for
each shuffled edge candidate and delegate to the depth loop. -/
def pickHeadEdges (rows cols : Int) (occupied : List Pos) (min_depth max_depth : Int) :
    List (Int × Int × Dir) → RNG → Option (Int × Int × Dir × List Pos) × RNG
  | [], rng => (none, rng)
  | (edge_r, edge_c, d) :: rest, rng =>
    let depths := (List.range (max_depth + 1 - min_depth).toNat).map
      (fun k => min_depth + (k : Int))
    let dep := pyShuffle depths rng
    match pickHeadDepths edge_r edge_c d rows cols occupied dep.1 with
    | some res => (some res, dep.2)
    | none => pickHeadEdges rows cols occupied min_depth max_depth rest dep.2

/-- generator._pick_head: pick a random edge, position and depth whose head
cell is unoccupied and whose exit corridor is free of existing worms. -/
def pick_head (rows cols : Int) (occupied : List Pos) (min_depth : Int)
    (max_depth : Option Int) (rng : RNG) : Option (Int × Int × Dir × List Pos) × RNG :=
  let edges :=
    ((List.range cols.toNat).flatMap
      (fun c => [((0 : Int), (c : Int), Dir.up), (rows - 1, (c : Int), Dir.down)]))
    ++ ((List.range rows.toNat).flatMap
      (fun r => [((r : Int), (0 : Int), Dir.left), ((r : Int), cols - 1, Dir.right)]))
  let sh := pyShuffle edges rng
  let maxD := max_depth.getD (max rows cols - 2)
  pickHeadEdges rows cols occupied min_depth maxD sh.1 sh.2

/-- The four candidate step deltas of the body walk (generator ALL_DIRS). -/
def ALL_DIRS : List (Int × Int) := [(0, 1), (0, -1), (1, 0), (-1, 0)]

/-- The leading-edge constraint of generator._grow_body._valid: a body cell
must not lie further in the head direction than the head. -/
def walkValid (direction : Dir) (head_r head_c : Int) (p : Pos) : Bool :=
  match direction with
  | .right => decide (¬ head_c < p.2)
  | .left => decide (¬ p.2 < head_c)
  | .down => decide (¬ head_r < p.1)
  | .up => decide (¬ p.1 < head_r)

/-- The self-avoiding biased walk of generator._grow_body: per step collect
valid 4-connected neighbours, weight corridor-target cells five-fold, and
pick one at random; stop at a dead end. -/
def growBodyWalk (direction : Dir) (head_r head_c : Int) (target_cells : List Pos)
    (rows cols : Int) : Nat → Pos → List Pos → List Pos → RNG → List Pos × RNG
  | 0, _, body, _, rng => (body, rng)
  | steps+1, cur, body, taken, rng =>
    let candidates := (ALL_DIRS.map (fun dd => (cur.1 + dd.1, cur.2 + dd.2))).filter
      (fun p => inB rows cols p ∧ ¬ p ∈ taken ∧ walkValid direction head_r head_c p = true)
    if candidates = [] then (body, rng)
    else
      let weighted := candidates.flatMap
        (fun p => List.replicate (if p ∈ target_cells then 5 else 1) p)
      let ch := pyChoice weighted rng
      match ch.1 with
      | none => (body, ch.2)
      | some p =>
        growBodyWalk direction head_r head_c target_cells rows cols steps p
          (body ++ [p]) (taken ++ [p]) ch.2

/-- generator._grow_body: draw a target segment count, run the walk from the
head, and accept only a body of at least min_segs cells, reversed to
tail-first order. -/
def grow_body (head_r head_c : Int) (direction : Dir) (occupied target_cells : List Pos)
    (min_segs max_segs : Int) (rows cols : Int) (rng : RNG) : Option (List Pos) × RNG :=
  let nr := randInt rng min_segs max_segs
  if nr.1 = 0 then (some [], nr.2)
  else
    let walk := growBodyWalk direction head_r head_c target_cells rows cols
      nr.1.toNat (head_r, head_c) [] (occupied ++ [(head_r, head_c)]) nr.2
    if (walk.1.length : Int) < min_segs then (none, walk.2)
    else (some walk.1.reverse, walk.2)

/-- One placed worm as recorded by generate_level. -/
structure PlacedWorm where
  worm_id : Char
  headPos : Pos
  direction : Dir
  body : List Pos
  color : String
  segments : List Pos
deriving DecidableEq, Repr

/-- The per-worm retry loop of generate_level (300 attempts): a failed head
pick aborts, a too-short body retries, success returns the head,
direction, corridor and body. -/
def tryPlaceWorm (rows cols min_body max_body max_depth : Int)
    (occupied target_cells : List Pos) :
    Nat → RNG → Option (Int × Int × Dir × List Pos × List Pos) × RNG
  | 0, rng => (none, rng)
  | attempts+1, rng =>
    match pick_head rows cols occupied 1 (some max_depth) rng with
    | (none, rng') => (none, rng')
    | (some (hr, hc, d, corridor), rng') =>
      match grow_body hr hc d occupied target_cells min_body max_body rows cols rng' with
      | (none, rng2) =>
        tryPlaceWorm rows cols min_body max_body max_depth occupied target_cells attempts rng2
      | (some body, rng2) => (some (hr, hc, d, corridor, body), rng2)

/-- The main placement loop of generate_level over worm indices.  Returns
none for the hard failure (first worm unplaceable), otherwise the placed
worms.  A later unplaceable worm stops the loop, keeping the worms placed
so far. -/
def genLoop (rows cols min_body max_body : Int) :
    Nat → Nat → List Pos → List (List Pos) → List PlacedWorm → RNG →
    Option (List PlacedWorm × RNG)
  | _, 0, _, _, placed, rng => some (placed, rng)
  | i, n+1, occupied, corridors, placed, rng =>
    let wid := Char.ofNat (65 + i)
    let target_cells := (corridors.foldl (fun a b => a ++ b) []).filter (fun p => ¬ p ∈ occupied)
    let max_depth := if i = 0 then max rows cols - 2 else (max rows cols).fdiv 2 + 1
    match tryPlaceWorm rows cols min_body max_body max_depth occupied target_cells 300 rng with
    | (none, rng') => if i = 0 then none else some (placed, rng')
    | (some (hr, hc, d, corridor, body), rng') =>
      let color := COLOR_CYCLE.getD (i % COLOR_CYCLE.length) "red"
      let segments := body ++ [(hr, hc)]
      let pw : PlacedWorm := ⟨wid, (hr, hc), d, body, color, segments⟩
      genLoop rows cols min_body max_body (i + 1) n (occupied ++ segments)
        (corridors ++ [corridor]) (placed ++ [pw]) rng'

/-- Write one character into the text grid (grid[r][c] = ch); the generator
only ever writes in-bounds cells. -/
def writeCell (g : List (List Char)) (r c : Int) (ch : Char) : List (List Char) :=
  if 0 ≤ r ∧ 0 ≤ c then g.set r.toNat ((g.getD r.toNat []).set c.toNat ch) else g

/-- Write one worm into the text grid: its head cell as the uppercase id,
then each body cell as the lowercase id. -/
def writeWorm (g : List (List Char)) (wd : PlacedWorm) : List (List Char) :=
  wd.body.foldl (fun g2 bp => writeCell g2 bp.1 bp.2 wd.worm_id.toLower)
    (writeCell g wd.headPos.1 wd.headPos.2 wd.worm_id.toUpper)

/-- Render the placed worms into the text grid over an all-dots grid. -/
def renderGrid (rows cols : Int) (placed : List PlacedWorm) : List (List Char) :=
  placed.foldl writeWorm (List.replicate rows.toNat (List.replicate cols.toNat '.'))

/-- Assemble the LEVEL_DATA dictionary from the placed worms. -/
def mkLevelData (rows cols : Int) (placed : List PlacedWorm) : LevelData :=
  { name := some ("Generated " ++ toString rows ++ "x" ++ toString cols ++ " ("
      ++ toString placed.length ++ " worms)")
    rows := rows
    cols := cols
    grid := (renderGrid rows cols placed).map (fun row => String.mk row)
    worms := placed.map (fun wd => (wd.worm_id, ⟨some wd.color, dirStr wd.direction⟩)) }

/-- The hard-failure message of generate_level. -/
def hardFailMsg : String :=
  "Failed to place even the first worm — grid too small for the requested worm length."

/-- The degraded-success message of generate_level. -/
def fewerMsg (actual : Nat) (num_worms : Int) : String :=
  "Placed " ++ toString actual ++ " of " ++ toString num_worms
    ++ " worms (grid too crowded for more)."

/-- generator.generate_level, as a function of the post-seeding random
oracle: returns the level data (none on failure), the placement order and
the status message. -/
def generate_level (rows cols num_worms min_len max_len : Int) (rng : RNG) :
    Option LevelData × List Char × String :=
  let min_body := max (min_len - 1) 0
  let max_body := max_len - 1
  match genLoop rows cols min_body max_body 0 num_worms.toNat [] [] [] rng with
  | none => (none, [], hardFailMsg)
  | some (placed, _) =>
    if placed = [] then (none, [], "No worms could be placed.")
    else
      (some (mkLevelData rows cols placed),
       placed.map (fun wd => wd.worm_id),
       if (placed.length : Int) < num_worms then fewerMsg placed.length num_worms else "OK")

/-- generate_level including the seeding step: a given seed replaces the
ambient random-module state via the seeding map, seed none keeps it. -/
def generate_level_seeded (seedFn : Int → RNG) (rows cols num_worms min_len max_len : Int)
    (seed : Option Int) (ambient : RNG) : Option LevelData × List Char × String :=
  let rng := match seed with
    | some s => seedFn s
    | none => ambient
  generate_level rows cols num_worms min_len max_len rng

/-! ## Specification helpers (used only in theorem statements) -/

/-- The position k steps from p in direction d. -/
def posAt (p : Pos) (d : Dir) (k : Int) : Pos :=
  match d with
  | .up => (p.1 - k, p.2)
  | .down => (p.1 + k, p.2)
  | .left => (p.1, p.2 - k)
  | .right => (p.1, p.2 + k)

/-- Whether p sits on the boundary edge that direction d faces. -/
def onFacingEdge (p : Pos) (d : Dir) (rows cols : Int) : Prop :=
  match d with
  | .up => p.1 = 0
  | .down => p.1 = rows - 1
  | .left => p.2 = 0
  | .right => p.2 = cols - 1

/-- The number of corridor cells ahead of an in-bounds position. -/
def corrSteps (d : Dir) (rows cols : Int) (p : Pos) : Nat :=
  match d with
  | .up => p.1.toNat
  | .down => (rows - 1 - p.1).toNat
  | .left => p.2.toNat
  | .right => (cols - 1 - p.2).toNat

/-- First blocker specified over an explicit cell list: the owner of the
first occupied cell whose owner is not the worm itself. -/
def listFirstBlocker (wid : Char) (occ : Pos → Option Char) : List Pos → Option Char
  | [] => none
  | p :: rest =>
    match occ p with
    | some o => if o ≠ wid then some o else listFirstBlocker wid occ rest
    | none => listFirstBlocker wid occ rest

/-- is_solvable with the level dictionary threaded as explicit state.  The
Python function reads level_data (through load_level) and reassigns only
its own locals, so the translated state component passes through
untouched. -/
def is_solvable_state (ld : LevelData) : (Except String (Bool × List String)) × LevelData :=
  (is_solvable ld, ld)

/-- Whether load_level raises rather than returning worms. -/
def loadRejects (ld : LevelData) : Bool :=
  match load_level ld with
  | .error _ => true
  | .ok _ => false

/-- Whether a scanned character is skipped by load_level. -/
def blankChar (ch : Char) : Bool := ch = '.' ∨ ch = ' '

/-- Whether a scanned cell marks the head of worm wid. -/
def headMark (wid : Char) (pc : Pos × Char) : Bool :=
  ¬ blankChar pc.2 ∧ pc.2.toUpper = wid ∧ pc.2.isUpper

/-- Whether a scanned cell marks a body segment of worm wid. -/
def bodyMark (wid : Char) (pc : Pos × Char) : Bool :=
  ¬ blankChar pc.2 ∧ pc.2.toUpper = wid ∧ ¬ pc.2.isUpper

/-- Head cells of a worm id in a scanned cell list. -/
def headCellsL (cells : List (Pos × Char)) (wid : Char) : List Pos :=
  (cells.filter (headMark wid)).map Prod.fst

/-- Body cells of a worm id in a scanned cell list. -/
def bodyCellsL (cells : List (Pos × Char)) (wid : Char) : List Pos :=
  (cells.filter (bodyMark wid)).map Prod.fst

/-- Head cells of a worm id on a text grid. -/
def headCells (grid : List String) (wid : Char) : List Pos :=
  headCellsL (scanCells grid) wid

/-- Body cells of a worm id on a text grid. -/
def bodyCells (grid : List String) (wid : Char) : List Pos :=
  bodyCellsL (scanCells grid) wid

/-- Some id on the grid has more than one head cell. -/
def hasMultiHead (grid : List String) : Prop :=
  ∃ pc ∈ scanCells grid, 2 ≤ (headCells grid pc.2.toUpper).length

/-- Some id of the metadata mapping has no head cell on the grid (it is
missing from the grid entirely, or present only as body cells). -/
def metaWithoutHead (ld : LevelData) : Prop :=
  ∃ wm ∈ ld.worms, headCells ld.grid wm.1 = []

/-- Some metadata id has a body cell strictly further along its facing
direction than its head cell. -/
def metaBodyBeyondHead (ld : LevelData) : Prop :=
  ∃ wm ∈ ld.worms, ∃ h ∈ headCells ld.grid wm.1, ∃ b ∈ bodyCells ld.grid wm.1,
    leViol wm.2.direction h b = true

/-- Some id appears on the grid but is absent from the metadata mapping
(the original parser-contract reading refuted by C9's counterexample). -/
def gridIdWithoutMeta (ld : LevelData) : Prop :=
  ∃ pc ∈ scanCells ld.grid, ¬ blankChar pc.2 ∧ (ld.worms.lookup pc.2.toUpper) = none

instance (grid : List String) : Decidable (hasMultiHead grid) := by
  unfold hasMultiHead; infer_instance

instance (ld : LevelData) : Decidable (metaWithoutHead ld) := by
  unfold metaWithoutHead; infer_instance

instance (ld : LevelData) : Decidable (metaBodyBeyondHead ld) := by
  unfold metaBodyBeyondHead; infer_instance

instance (ld : LevelData) : Decidable (gridIdWithoutMeta ld) := by
  unfold gridIdWithoutMeta; infer_instance

/-- Reading a cell of a character grid (row-major, nonnegative indices). -/
def cellAt (g : List (List Char)) (p : Pos) : Option Char :=
  (g.get? p.1.toNat).bind (fun row => row.get? p.2.toNat)

/-- Reading a cell of a text grid through the row strings. -/
def strCellAt (grid : List String) (rn cn : Nat) : Option Char :=
  (grid.get? rn).bind (fun row => row.data.get? cn)

/-- The character that the generated grid shows at a cell: uppercase id on
a head, lowercase id on a body cell, dot elsewhere. -/
def cellChar (placed : List PlacedWorm) (p : Pos) : Char :=
  match placed.find? (fun wd => wd.headPos = p) with
  | some wd => wd.worm_id.toUpper
  | none =>
    match placed.find? (fun wd => decide (p ∈ wd.body)) with
    | some wd => wd.worm_id.toLower
    | none => '.'

/-- Segment disjointness of two placed worms. -/
def DisjPW (a b : PlacedWorm) : Prop := ∀ p ∈ a.segments, p ∉ b.segments

/-- The exit corridor of the later worm b avoids the earlier worm a. -/
def CorrClearPW (rows cols : Int) (a b : PlacedWorm) : Prop :=
  ∀ p ∈ exit_corridor b.headPos.1 b.headPos.2 b.direction rows cols, p ∉ a.segments

/-- The placement invariant maintained by the generator loop. -/
def GoodPlaced (rows cols : Int) (placed : List PlacedWorm) : Prop :=
  (∀ wd ∈ placed,
      wd.segments = wd.body ++ [wd.headPos]
        ∧ inB rows cols wd.headPos
        ∧ (∀ p ∈ wd.body, inB rows cols p ∧ walkValid wd.direction wd.headPos.1 wd.headPos.2 p = true)
        ∧ wd.segments.Nodup)
    ∧ placed.Pairwise (fun a b => DisjPW a b ∧ CorrClearPW rows cols a b)

/-- The worm ids assigned to the first n placements. -/
def idsUpTo (n : Nat) : List Char := (List.range n).map (fun k => Char.ofNat (65 + k))

/-- Corridor-freedom from earlier worms, on parsed Worm values: any worm
whose id precedes another worm's id never touches the later worm's exit
corridor.  This is the property reverse construction establishes. -/
def CorrFree (rows cols : Int) (worms : List Worm) : Prop :=
  ∀ w ∈ worms, ∀ w2 ∈ worms, w2.worm_id < w.worm_id →
    ∀ p ∈ exit_corridor w.head.1 w.head.2 w.direction rows cols, p ∉ w2.segments

/-! ## Concrete witness data -/

/-- The all-zero random oracle used for concrete generator runs. -/
def rngZero : RNG := ⟨fun _ => 0, 0⟩

/-- The 6x6 scenario level of the spec (entities A, B, C). -/
def c3Level : LevelData :=
  { name := some "C3"
    rows := 6
    cols := 6
    grid := ["......", "...Cc.", "...B..", "aaAb..", "...b..", "......"]
    worms := [('A', ⟨some "red", "right"⟩), ('B', ⟨some "blue", "up"⟩),
              ('C', ⟨some "green", "left"⟩)] }

/-- A 3x3 deadlocked pair: A faces right into B's head, B faces left into
A's body. -/
def deadWormA : Worm := ⟨'A', [(1, 0), (1, 1)], .right, "red"⟩

/-- Companion worm of the deadlocked pair. -/
def deadWormB : Worm := ⟨'B', [(1, 2)], .left, "blue"⟩

/-- A layout whose only mark is an id on the grid that the metadata does
not declare; load_level returns it without raising. -/
def c9CexLevel : LevelData :=
  { name := none, rows := 1, cols := 1, grid := ["A"], worms := [] }

/-- A small solvable layout used by hypothesis witnesses. -/
def wormSingle : Worm := ⟨'A', [(0, 0)], .up, "red"⟩

/-- A placed-worm record used when instantiating generator-loop lemmas. -/
def pwWit : PlacedWorm := ⟨'A', (0, 0), .up, [], "red", [(0, 0)]⟩

/-- A layout with two head cells for the same id, used as the C9 witness. -/
def c9WitLevel : LevelData :=
  { name := none, rows := 1, cols := 2, grid := ["AA"],
    worms := [('A', ⟨some "red", "up"⟩)] }

/-- The layout that generate_level 6 6 3 2 4 produces under the all-zero
random oracle, written out literally (worms A and B face down in column 0,
worm C faces up in column 1 with B inside A's exit corridor). -/
def c2GenLevel : LevelData :=
  { name := some "Generated 6x6 (3 worms)"
    rows := 6
    cols := 6
    grid := ["......", "......", ".Cc...", "Aa....", "Bb....", "......"]
    worms := [('A', ⟨some "red", "down"⟩), ('B', ⟨some "blue", "down"⟩),
              ('C', ⟨some "green", "up"⟩)] }

/-! # Theorems -/

/-! ## Corridor walk characterisation -/

theorem corridorAux_mem (d : Dir) (rows cols : Int) :
    ∀ (fuel : Nat) (r c : Int), inB rows cols (r, c) →
      corrSteps d rows cols (r, c) ≤ fuel →
      ∀ q : Pos, q ∈ corridorAux fuel r c d rows cols ↔
        (inB rows cols q ∧ ∃ k : Int, 1 ≤ k ∧ q = posAt (r, c) d k) := by
  intro fuel
  induction fuel with
  | zero =>
    intro r c hin hst q
    simp only [corridorAux, List.not_mem_nil, false_iff, not_and]
    rintro hq ⟨k, hk, rfl⟩
    cases d <;>
      simp only [corrSteps, posAt, inB] at hst hq hin <;> omega
  | succ fuel ih =>
    intro r c hin hst q
    simp only [corridorAux]
    by_cases hstep : inB rows cols (r + (DIR_DELTA d).1, c + (DIR_DELTA d).2)
    · have hst' : corrSteps d rows cols (r + (DIR_DELTA d).1, c + (DIR_DELTA d).2) ≤ fuel := by
        cases d <;> simp only [corrSteps, DIR_DELTA, inB] at hst hin hstep ⊢ <;> omega
      rw [if_pos hstep]
      simp only [List.mem_cons, ih _ _ hstep hst']
      constructor
      · rintro (rfl | ⟨hq, k, hk, rfl⟩)
        · refine ⟨hstep, 1, le_refl 1, ?_⟩
          cases d <;> simp [posAt, DIR_DELTA] <;> omega
        · refine ⟨hq, k + 1, by omega, ?_⟩
          cases d <;> simp [posAt, DIR_DELTA] <;> omega
      · rintro ⟨hq, k, hk, rfl⟩
        rcases eq_or_lt_of_le hk with hk1 | hk2
        · left
          cases d <;> simp [posAt, DIR_DELTA] <;> omega
        · right
          refine ⟨hq, ⟨k - 1, by omega, ?_⟩⟩
          cases d <;> simp [posAt, DIR_DELTA] <;> omega
    · rw [if_neg hstep]
      simp only [List.not_mem_nil, false_iff, not_and]
      rintro hq ⟨k, hk, rfl⟩
      cases d <;>
        simp only [posAt, DIR_DELTA, inB] at hq hin hstep <;> omega

theorem corrSteps_le_corrFuel (d : Dir) (rows cols : Int) (p : Pos) (hin : inB rows cols p) :
    corrSteps d rows cols p ≤ corrFuel rows cols := by
  obtain ⟨r, c⟩ := p
  cases d <;> simp only [corrSteps, corrFuel, inB] at hin ⊢ <;> omega

/-- Membership characterisation of exit_corridor for in-bounds positions. -/
theorem exit_corridor_mem (r c : Int) (d : Dir) (rows cols : Int)
    (hin : inB rows cols (r, c)) (q : Pos) :
    q ∈ exit_corridor r c d rows cols ↔
      (inB rows cols q ∧ ∃ k : Int, 1 ≤ k ∧ q = posAt (r, c) d k) :=
  corridorAux_mem d rows cols (corrFuel rows cols) r c hin
    (corrSteps_le_corrFuel d rows cols (r, c) hin) q

theorem exit_corridor_eq_nil_iff (r c : Int) (d : Dir) (rows cols : Int) :
    exit_corridor r c d rows cols = [] ↔
      ¬ inB rows cols (r + (DIR_DELTA d).1, c + (DIR_DELTA d).2) := by
  unfold exit_corridor corrFuel
  simp only [corridorAux]
  by_cases hstep : inB rows cols (r + (DIR_DELTA d).1, c + (DIR_DELTA d).2)
  · simp [hstep]
  · simp [hstep]

theorem corridorAux_single (fuel : Nat) (r c : Int) (d : Dir) (rows cols : Int)
    (h1 : inB rows cols (r + (DIR_DELTA d).1, c + (DIR_DELTA d).2))
    (h2 : ¬ inB rows cols
      (r + (DIR_DELTA d).1 + (DIR_DELTA d).1, c + (DIR_DELTA d).2 + (DIR_DELTA d).2)) :
    corridorAux (fuel + 2) r c d rows cols = [(r + (DIR_DELTA d).1, c + (DIR_DELTA d).2)] := by
  simp only [corridorAux]
  rw [if_pos h1, if_neg h2]

/-! ## First blocker characterisation -/

theorem firstBlockerAux_eq (wid : Char) (occ : Pos → Option Char) (d : Dir) (rows cols : Int) :
    ∀ (fuel : Nat) (r c : Int),
      firstBlockerAux fuel wid occ d rows cols r c
        = listFirstBlocker wid occ (corridorAux fuel r c d rows cols) := by
  intro fuel
  induction fuel with
  | zero => intro r c; rfl
  | succ fuel ih =>
    intro r c
    simp only [firstBlockerAux, corridorAux]
    by_cases hstep : inB rows cols (r + (DIR_DELTA d).1, c + (DIR_DELTA d).2)
    · rw [if_pos hstep, if_pos hstep]
      simp only [listFirstBlocker]
      cases hocc : occ (r + (DIR_DELTA d).1, c + (DIR_DELTA d).2) with
      | none => exact ih _ _
      | some o =>
        by_cases ho : o = wid
        · subst ho; simp only [ne_eq, not_true_eq_false, if_false]; exact ih _ _
        · simp only [ne_eq, ho, not_false_eq_true, if_true]
    · rw [if_neg hstep, if_neg hstep]
      rfl

theorem listFirstBlocker_eq_none_iff (wid : Char) (occ : Pos → Option Char) :
    ∀ l : List Pos, (listFirstBlocker wid occ l = none ↔
      ∀ p ∈ l, occ p = none ∨ occ p = some wid) := by
  intro l
  induction l with
  | nil => simp [listFirstBlocker]
  | cons p rest ih =>
    simp only [listFirstBlocker]
    cases hocc : occ p with
    | none => simp [hocc, ih]
    | some o =>
      by_cases ho : o = wid
      · subst ho
        simp only [ne_eq, not_true_eq_false, if_false, ih, List.mem_cons]
        constructor
        · intro h q hq
          rcases hq with rfl | hq
          · right; exact hocc
          · exact h q hq
        · intro h q hq
          exact h q (Or.inr hq)
      · simp only [ne_eq, ho, not_false_eq_true, if_true, List.mem_cons]
        constructor
        · intro h; exact absurd h (by simp)
        · intro h
          rcases h p (Or.inl rfl) with h1 | h1
          · rw [hocc] at h1; exact absurd h1 (by simp)
          · rw [hocc] at h1
            exact absurd (Option.some.inj h1) ho

/-! ## Claim theorems: tracer and concrete scenario -/

/-- C6: for every in-bounds position p, direction d, and positive bounds,
the corridor of p contains exactly the in-bounds cells strictly between p
and the boundary along d; it is empty iff p already sits on the boundary
edge facing d; and a head at depth 1 from its facing edge has a corridor
of exactly one cell. -/
theorem corridor_spec (r c : Int) (d : Dir) (rows cols : Int)
    (hin : inB rows cols (r, c)) :
    (∀ q : Pos, q ∈ exit_corridor r c d rows cols ↔
        (inB rows cols q ∧ ∃ k : Int, 1 ≤ k ∧ q = posAt (r, c) d k))
      ∧ (exit_corridor r c d rows cols = [] ↔ onFacingEdge (r, c) d rows cols)
      ∧ (inB rows cols (posAt (r, c) d 1) → ¬ inB rows cols (posAt (r, c) d 2) →
          exit_corridor r c d rows cols = [posAt (r, c) d 1]) := by
  refine ⟨fun q => exit_corridor_mem r c d rows cols hin q, ?_, ?_⟩
  · rw [exit_corridor_eq_nil_iff]
    cases d <;> simp only [onFacingEdge, DIR_DELTA, inB] at hin ⊢ <;> omega
  · intro h1 h2
    have hfuel : corrFuel rows cols = ((rows + cols).toNat - 1) + 2 := by
      unfold corrFuel
      obtain ⟨hr0, hr1, hc0, hc1⟩ := hin
      omega
    have e1 : posAt (r, c) d 1 = (r + (DIR_DELTA d).1, c + (DIR_DELTA d).2) := by
      cases d <;> simp [posAt, DIR_DELTA] <;> omega
    have e2 : posAt (r, c) d 2
        = (r + (DIR_DELTA d).1 + (DIR_DELTA d).1, c + (DIR_DELTA d).2 + (DIR_DELTA d).2) := by
      cases d <;> simp [posAt, DIR_DELTA] <;> omega
    rw [e1] at h1
    rw [e2] at h2
    unfold exit_corridor
    rw [hfuel, corridorAux_single _ r c d rows cols h1 h2, e1]

/-- C5: first_blocker steps from the worm head along its direction and
returns the id owning the first occupied cell whose owner is not the worm
itself, and returns none exactly when every corridor cell up to the
boundary is unoccupied or occupied by the worm itself. -/
theorem first_blocker_spec (w : Worm) (occ : Pos → Option Char) (rows cols : Int)
    (_hin : inB rows cols w.head) :
    first_blocker w occ rows cols
        = listFirstBlocker w.worm_id occ
            (exit_corridor w.head.1 w.head.2 w.direction rows cols)
      ∧ (first_blocker w occ rows cols = none ↔
          ∀ p ∈ exit_corridor w.head.1 w.head.2 w.direction rows cols,
            occ p = none ∨ occ p = some w.worm_id) := by
  have he : first_blocker w occ rows cols
      = listFirstBlocker w.worm_id occ
          (exit_corridor w.head.1 w.head.2 w.direction rows cols) :=
    firstBlockerAux_eq w.worm_id occ w.direction rows cols (corrFuel rows cols) w.head.1 w.head.2
  refine ⟨he, ?_⟩
  rw [he]
  exact listFirstBlocker_eq_none_iff w.worm_id occ _

/-- Hypothesis witness for C5 at a concrete worm, occupancy and bounds. -/
theorem first_blocker_spec_witness :
    inB 6 6 (WormEscape.Worm.head ⟨'A', [(3, 0), (3, 1), (3, 2)], .right, "red"⟩)
      ∧ (first_blocker ⟨'A', [(3, 0), (3, 1), (3, 2)], .right, "red"⟩
            (build_occupancy [⟨'A', [(3, 0), (3, 1), (3, 2)], .right, "red"⟩, deadWormB]) 6 6
          = listFirstBlocker 'A'
              (build_occupancy [⟨'A', [(3, 0), (3, 1), (3, 2)], .right, "red"⟩, deadWormB])
              (exit_corridor 3 2 .right 6 6)) :=
  ⟨by decide,
   (first_blocker_spec ⟨'A', [(3, 0), (3, 1), (3, 2)], .right, "red"⟩
      (build_occupancy [⟨'A', [(3, 0), (3, 1), (3, 2)], .right, "red"⟩, deadWormB]) 6 6
      (by decide)).1⟩

/-- Hypothesis witness for C6 at a concrete position, direction and bounds:
emptiness on the facing edge and the one-cell corridor at depth 1. -/
theorem corridor_spec_witness :
    inB 3 3 ((1 : Int), (1 : Int))
      ∧ (exit_corridor 1 1 .up 3 3 = [] ↔ onFacingEdge (1, 1) .up 3 3)
      ∧ exit_corridor 1 1 .up 3 3 = [posAt (1, 1) .up 1] :=
  ⟨by decide, (corridor_spec 1 1 .up 3 3 (by decide)).2.1,
   (corridor_spec 1 1 .up 3 3 (by decide)).2.2 (by decide) (by decide)⟩

/-! ## Claim theorems: concrete scenario, determinism, purity -/

/-- C3: on the 6x6 scenario layout (A right with head (3,2), B up with head
(2,3), C left with head (1,3)), is_solvable answers solvable, round 1
frees exactly C, round 2 exactly B, round 3 exactly A, and the extraction
order is C, B, A. -/
theorem c3_scenario :
    solvableVerdict c3Level = some true
      ∧ solveRounds c3Level = some [['C'], ['B'], ['A']]
      ∧ solveOrder c3Level = some ['C', 'B', 'A'] := by decide

/-- C7: with the same seed, two generator invocations agree regardless of
the ambient random-module state; the returned layout, placement order and
message are identical. -/
theorem generate_level_deterministic (seedFn : Int → RNG)
    (rows cols num_worms min_len max_len : Int) (s : Int) (ambient1 ambient2 : RNG) :
    generate_level_seeded seedFn rows cols num_worms min_len max_len (some s) ambient1
      = generate_level_seeded seedFn rows cols num_worms min_len max_len (some s) ambient2 := rfl

/-- C10: is_solvable leaves the level dictionary unchanged whenever it does
not raise, so a second identical call yields the same verdict and
report. -/
theorem is_solvable_pure (ld : LevelData) (_h : (is_solvable ld).isOk = true) :
    (is_solvable_state ld).2 = ld
      ∧ is_solvable (is_solvable_state ld).2 = is_solvable ld := ⟨rfl, rfl⟩

/-- Hypothesis witness for C10 on the concrete scenario layout. -/
theorem is_solvable_pure_witness :
    (is_solvable c3Level).isOk = true
      ∧ (is_solvable_state c3Level).2 = c3Level
      ∧ is_solvable (is_solvable_state c3Level).2 = is_solvable c3Level :=
  ⟨by decide, (is_solvable_pure c3Level (by decide)).1, (is_solvable_pure c3Level (by decide)).2⟩

/-! ## Insertion sort lemmas -/

theorem mem_ordIns (le : α → α → Bool) (a x : α) :
    ∀ l : List α, (x ∈ ordIns le a l ↔ x = a ∨ x ∈ l) := by
  intro l
  induction l with
  | nil => simp [ordIns]
  | cons b l ih =>
    simp only [ordIns]
    by_cases h : le a b = true
    · simp [h]
    · simp only [if_neg h, List.mem_cons, ih]
      tauto

theorem mem_insSort (le : α → α → Bool) (x : α) :
    ∀ l : List α, (x ∈ insSort le l ↔ x ∈ l) := by
  intro l
  induction l with
  | nil => simp [insSort]
  | cons a l ih => simp [insSort, mem_ordIns, ih]

theorem ordIns_perm (le : α → α → Bool) (a : α) :
    ∀ l : List α, (ordIns le a l).Perm (a :: l) := by
  intro l
  induction l with
  | nil => simp [ordIns]
  | cons b l ih =>
    simp only [ordIns]
    by_cases h : le a b = true
    · simp [h]
    · rw [if_neg h]
      exact (ih.cons b).trans (List.Perm.swap a b l)

theorem insSort_perm (le : α → α → Bool) :
    ∀ l : List α, (insSort le l).Perm l := by
  intro l
  induction l with
  | nil => simp [insSort]
  | cons a l ih =>
    exact (ordIns_perm le a (insSort le l)).trans (ih.cons a)

theorem ordIns_concat (le : α → α → Bool) (a b : α) (hab : le a b = true) :
    ∀ l : List α, ∃ m : List α, ordIns le a (l ++ [b]) = m ++ [b] ∧ m.Perm (a :: l) := by
  intro l
  induction l with
  | nil =>
    refine ⟨[a], ?_, .refl _⟩
    simp [ordIns, hab]
  | cons y l ih =>
    simp only [List.cons_append, ordIns]
    by_cases h : le a y = true
    · exact ⟨a :: y :: l, by simp [h], .refl _⟩
    · rw [if_neg h]
      obtain ⟨m, hm, hp⟩ := ih
      refine ⟨y :: m, by simp [hm], ?_⟩
      exact (hp.cons y).trans (List.Perm.swap a y l)

theorem insSort_concat (le : α → α → Bool) (b : α) :
    ∀ l : List α, (∀ y ∈ l, le y b = true) →
      ∃ m : List α, insSort le (l ++ [b]) = m ++ [b] ∧ m.Perm l := by
  intro l
  induction l with
  | nil => exact fun _ => ⟨[], rfl, .refl _⟩
  | cons y l ih =>
    intro hall
    obtain ⟨m, hm, hp⟩ := ih (fun z hz => hall z (List.mem_cons_of_mem y hz))
    obtain ⟨m2, hm2, hp2⟩ := ordIns_concat le y b (hall y (List.mem_cons_self y l)) m
    refine ⟨m2, ?_, hp2.trans (hp.cons y)⟩
    show ordIns le y (insSort le (l ++ [b])) = m2 ++ [b]
    rw [hm, hm2]

theorem insSort_concat_getLastD (le : α → α → Bool) (b dflt : α) (l : List α)
    (hall : ∀ y ∈ l, le y b = true) :
    (insSort le (l ++ [b])).getLastD dflt = b := by
  obtain ⟨m, hm, _⟩ := insSort_concat le b l hall
  rw [hm, List.getLastD_concat]

/-! ## Claim theorem: deadlock behaviour (C4) -/

/-- C4: from any solver-loop state whose current round finds no free worm
while worms remain, the loop stops at once, answers unsolvable, reports
every remaining worm id with its blockers, and extracts nothing in or
after that round; instantiated at round one, is_solvable returns false
with the deadlock report. -/
theorem solver_deadlock (fuel : Nat) (worms : List Worm) (rows cols : Int)
    (round_num : Nat) (report : List String) (order : List Char) (rounds : List (List Char))
    (hne : worms ≠ [])
    (hfree : sortChars (((build_dependency_graph worms rows cols).filter
      (fun e => e.2 = [])).map Prod.fst) = []) :
    solveLoop (fuel + 1) worms rows cols round_num report order rounds
        = (false,
           report ++ deadlockLines (round_num + 1) (build_dependency_graph worms rows cols) worms,
           order, rounds)
      ∧ (∀ w ∈ worms,
          blockedLine w.worm_id
              (((build_dependency_graph worms rows cols).lookup w.worm_id).getD [])
            ∈ report ++ deadlockLines (round_num + 1) (build_dependency_graph worms rows cols) worms)
      ∧ (∀ ld name, load_level ld = .ok (rows, cols, name, worms) →
          is_solvable ld
            = .ok (false, deadlockLines 1 (build_dependency_graph worms rows cols) worms)) := by
  have key : ∀ (fl : Nat) (rn : Nat) (rep : List String) (ord : List Char)
      (rds : List (List Char)),
      solveLoop (fl + 1) worms rows cols rn rep ord rds
        = (false, rep ++ deadlockLines (rn + 1) (build_dependency_graph worms rows cols) worms,
           ord, rds) := by
    intro fl rn rep ord rds
    obtain ⟨w0, ws, rfl⟩ := List.exists_cons_of_ne_nil hne
    simp [solveLoop, hfree]
  refine ⟨key fuel round_num report order rounds, ?_, ?_⟩
  · intro w hw
    have hkey : w.worm_id ∈ sortChars ((build_dependency_graph worms rows cols).map Prod.fst) := by
      have hmem : w.worm_id ∈ worms.map Worm.worm_id := List.mem_map_of_mem Worm.worm_id hw
      simpa [sortChars, mem_insSort, build_dependency_graph, List.map_map, Function.comp]
        using hmem
    have hline : blockedLine w.worm_id
        (((build_dependency_graph worms rows cols).lookup w.worm_id).getD [])
        ∈ (sortChars ((build_dependency_graph worms rows cols).map Prod.fst)).map
            (fun wid => blockedLine wid
              (((build_dependency_graph worms rows cols).lookup wid).getD [])) :=
      List.mem_map_of_mem _ hkey
    simp only [deadlockLines, List.mem_append, List.mem_cons]
    tauto
  · intro ld name hld
    have hred : is_solvable ld
        = .ok ((solveLoop (worms.length + 1) worms rows cols 0 [] [] []).1,
               (solveLoop (worms.length + 1) worms rows cols 0 [] [] []).2.1) := by
      unfold is_solvable
      rw [hld]
    have hlen : ∃ m : Nat, worms.length = m + 1 := by
      cases worms with
      | nil => exact absurd rfl hne
      | cons a l => exact ⟨l.length, by simp⟩
    obtain ⟨m, hm⟩ := hlen
    rw [hred, hm, key (m + 1) 0 [] [] []]
    simp

/-- Hypothesis witness for C4: the two-worm mutual-blocking layout from the
spec deadlocks in round one, both ids named in the report. -/
theorem solver_deadlock_witness :
    ([deadWormA, deadWormB] ≠ ([] : List Worm))
      ∧ sortChars (((build_dependency_graph [deadWormA, deadWormB] 3 3).filter
          (fun e => e.2 = [])).map Prod.fst) = []
      ∧ solveLoop 3 [deadWormA, deadWormB] 3 3 0 [] [] []
          = (false,
             [] ++ deadlockLines 1 (build_dependency_graph [deadWormA, deadWormB] 3 3)
               [deadWormA, deadWormB],
             [], [])
      ∧ blockedLine 'A'
            (((build_dependency_graph [deadWormA, deadWormB] 3 3).lookup 'A').getD [])
          ∈ [] ++ deadlockLines 1 (build_dependency_graph [deadWormA, deadWormB] 3 3)
              [deadWormA, deadWormB]
      ∧ blockedLine 'B'
            (((build_dependency_graph [deadWormA, deadWormB] 3 3).lookup 'B').getD [])
          ∈ [] ++ deadlockLines 1 (build_dependency_graph [deadWormA, deadWormB] 3 3)
              [deadWormA, deadWormB] :=
  ⟨by decide, by decide,
   (solver_deadlock 2 [deadWormA, deadWormB] 3 3 0 [] [] [] (by decide) (by decide)).1,
   (solver_deadlock 2 [deadWormA, deadWormB] 3 3 0 [] [] [] (by decide) (by decide)).2.1
     deadWormA (by decide),
   (solver_deadlock 2 [deadWormA, deadWormB] 3 3 0 [] [] [] (by decide) (by decide)).2.1
     deadWormB (by decide)⟩

/-! ## Cell-map dictionary lemmas -/

theorem lookup_map_replace (wid : Char) (e : CMEntry) :
    ∀ cm : CellMap,
      (cm.map (fun kv => if kv.1 = wid then (wid, e) else kv)).lookup wid
        = (cm.lookup wid).map (fun _ => e) := by
  intro cm
  induction cm with
  | nil => rfl
  | cons kv rest ih =>
    obtain ⟨k, v⟩ := kv
    rw [List.map_cons]
    by_cases hk : k = wid
    · subst hk
      have hred : (if ((k, v) : Char × CMEntry).1 = k then ((k, e) : Char × CMEntry) else (k, v))
          = (k, e) := if_pos rfl
      rw [hred]
      simp [List.lookup]
    · have hred : (if ((k, v) : Char × CMEntry).1 = wid then ((wid, e) : Char × CMEntry)
          else (k, v)) = (k, v) := if_neg hk
      rw [hred]
      have hne : (wid == k) = false := by simp [Ne.symm hk]
      simp [List.lookup, hne, ih]

theorem lookup_map_replace_ne (wid wid2 : Char) (e : CMEntry) (hne : wid2 ≠ wid) :
    ∀ cm : CellMap,
      (cm.map (fun kv => if kv.1 = wid then (wid, e) else kv)).lookup wid2 = cm.lookup wid2 := by
  intro cm
  induction cm with
  | nil => rfl
  | cons kv rest ih =>
    obtain ⟨k, v⟩ := kv
    rw [List.map_cons]
    by_cases hk : k = wid
    · subst hk
      have hred : (if ((k, v) : Char × CMEntry).1 = k then ((k, e) : Char × CMEntry) else (k, v))
          = (k, e) := if_pos rfl
      rw [hred]
      have h2 : (wid2 == k) = false := by simp [hne]
      simp [List.lookup, h2, ih]
    · have hred : (if ((k, v) : Char × CMEntry).1 = wid then ((wid, e) : Char × CMEntry)
          else (k, v)) = (k, v) := if_neg hk
      rw [hred]
      by_cases h2 : wid2 = k
      · simp [List.lookup, h2]
      · have h3 : (wid2 == k) = false := by simp [h2]
        simp [List.lookup, h3, ih]

theorem lookup_append_single_eq (wid : Char) (e : CMEntry) :
    ∀ cm : CellMap, cm.lookup wid = none → (cm ++ [(wid, e)]).lookup wid = some e := by
  intro cm
  induction cm with
  | nil => simp [List.lookup]
  | cons kv rest ih =>
    obtain ⟨k, v⟩ := kv
    intro h
    by_cases hk : wid = k
    · simp [List.lookup, hk] at h
    · have h2 : (wid == k) = false := by simp [hk]
      simp only [List.lookup, List.cons_append, h2] at h ⊢
      exact ih h

theorem lookup_append_single_ne (wid wid2 : Char) (e : CMEntry) (hne : wid2 ≠ wid) :
    ∀ cm : CellMap, (cm ++ [(wid, e)]).lookup wid2 = cm.lookup wid2 := by
  intro cm
  induction cm with
  | nil =>
    have h2 : (wid2 == wid) = false := by simp [hne]
    simp [List.lookup, h2]
  | cons kv rest ih =>
    obtain ⟨k, v⟩ := kv
    by_cases hk : wid2 = k
    · simp [List.lookup, hk]
    · have h2 : (wid2 == k) = false := by simp [hk]
      simp only [List.lookup, List.cons_append, h2]
      exact ih

theorem cmGet_cmSet_eq (cm : CellMap) (wid : Char) (e : CMEntry) :
    cmGet (cmSet cm wid e) wid = e := by
  unfold cmGet cmSet
  by_cases h : (cm.lookup wid).isSome
  · rw [if_pos h, lookup_map_replace]
    obtain ⟨v, hv⟩ := Option.isSome_iff_exists.mp h
    rw [hv]
    rfl
  · rw [if_neg h, lookup_append_single_eq wid e cm (Option.not_isSome_iff_eq_none.mp h)]
    rfl

theorem cmGet_cmSet_ne (cm : CellMap) (wid wid2 : Char) (e : CMEntry) (hne : wid2 ≠ wid) :
    cmGet (cmSet cm wid e) wid2 = cmGet cm wid2 := by
  unfold cmGet cmSet
  by_cases h : (cm.lookup wid).isSome
  · rw [if_pos h, lookup_map_replace_ne wid wid2 e hne]
  · rw [if_neg h, lookup_append_single_ne wid wid2 e hne]

/-! ## Scan fold characterisation -/

theorem headCellsL_cons (wid : Char) (pc : Pos × Char) (rest : List (Pos × Char)) :
    headCellsL (pc :: rest) wid
      = if headMark wid pc then pc.1 :: headCellsL rest wid else headCellsL rest wid := by
  unfold headCellsL
  by_cases h : headMark wid pc <;> simp [h, List.filter_cons]

theorem bodyCellsL_cons (wid : Char) (pc : Pos × Char) (rest : List (Pos × Char)) :
    bodyCellsL (pc :: rest) wid
      = if bodyMark wid pc then pc.1 :: bodyCellsL rest wid else bodyCellsL rest wid := by
  unfold bodyCellsL
  by_cases h : bodyMark wid pc <;> simp [h, List.filter_cons]

theorem scanStep_blank (cm : CellMap) (p : Pos) (ch : Char) (h : ch = '.' ∨ ch = ' ') :
    scanStep cm (p, ch) = .ok cm := by
  simp [scanStep, h]

theorem scanStep_head_none (cm : CellMap) (p : Pos) (ch : Char)
    (h1 : ¬ (ch = '.' ∨ ch = ' ')) (h2 : ch.isUpper = true)
    (h3 : (cmGet cm ch.toUpper).1 = none) :
    scanStep cm (p, ch) = .ok (cmSet cm ch.toUpper (some p, (cmGet cm ch.toUpper).2)) := by
  unfold scanStep
  rw [if_neg h1, if_pos h2, h3]

theorem scanStep_head_some (cm : CellMap) (p : Pos) (ch : Char) (hp : Pos)
    (h1 : ¬ (ch = '.' ∨ ch = ' ')) (h2 : ch.isUpper = true)
    (h3 : (cmGet cm ch.toUpper).1 = some hp) :
    scanStep cm (p, ch)
      = .error ("Worm '" ++ Char.toString ch.toUpper ++ "': multiple heads found on the grid.") := by
  unfold scanStep
  rw [if_neg h1, if_pos h2, h3]

theorem scanStep_body (cm : CellMap) (p : Pos) (ch : Char)
    (h1 : ¬ (ch = '.' ∨ ch = ' ')) (h2 : ch.isUpper = false) :
    scanStep cm (p, ch)
      = .ok (cmSet cm ch.toUpper ((cmGet cm ch.toUpper).1, (cmGet cm ch.toUpper).2 ++ [p])) := by
  unfold scanStep
  rw [if_neg h1, if_neg (by simp [h2])]

theorem scanFold_facts (wid : Char) :
    ∀ (L : List (Pos × Char)) (cm0 cm : CellMap),
      foldlExcept scanStep cm0 L = Except.ok cm →
      ((cmGet cm wid).2 = (cmGet cm0 wid).2 ++ bodyCellsL L wid)
        ∧ (∀ h : Pos, (cmGet cm0 wid).1 = some h →
            headCellsL L wid = [] ∧ (cmGet cm wid).1 = some h)
        ∧ ((cmGet cm0 wid).1 = none →
            ((cmGet cm wid).1 = none ∧ headCellsL L wid = [])
              ∨ ∃ h : Pos, (cmGet cm wid).1 = some h ∧ headCellsL L wid = [h]) := by
  intro L
  induction L with
  | nil =>
    intro cm0 cm hok
    simp only [foldlExcept, Except.ok.injEq] at hok
    subst hok
    simp [headCellsL, bodyCellsL]
  | cons pc rest ih =>
    obtain ⟨p, ch⟩ := pc
    intro cm0 cm hok
    rw [foldlExcept] at hok
    by_cases hblank : ch = '.' ∨ ch = ' '
    · rw [scanStep_blank cm0 p ch hblank] at hok
      have hhm : headMark wid (p, ch) = false := by simp [headMark, blankChar, hblank]
      have hbm : bodyMark wid (p, ch) = false := by simp [bodyMark, blankChar, hblank]
      rw [headCellsL_cons, bodyCellsL_cons, hhm, hbm]
      simp only [if_false, Bool.false_eq_true]
      exact ih cm0 cm hok
    · by_cases hup : ch.isUpper
      · cases hent : (cmGet cm0 ch.toUpper).1 with
        | some hprev =>
          rw [scanStep_head_some cm0 p ch hprev hblank hup hent] at hok
          exact Except.noConfusion hok
        | none =>
          rw [scanStep_head_none cm0 p ch hblank hup hent] at hok
          by_cases hw : ch.toUpper = wid
          · have hhm : headMark wid (p, ch) = true := by
              simp [headMark, blankChar, hblank, hup, hw]
            have hbm : bodyMark wid (p, ch) = false := by
              simp [bodyMark, blankChar, hblank, hup]
            rw [headCellsL_cons, bodyCellsL_cons, hhm, hbm]
            simp only [if_true, if_false, Bool.false_eq_true]
            have hget : cmGet (cmSet cm0 ch.toUpper (some p, (cmGet cm0 ch.toUpper).2)) wid
                = (some p, (cmGet cm0 wid).2) := by
              rw [← hw, cmGet_cmSet_eq]
            obtain ⟨ihb, ihh, _⟩ := ih _ cm hok
            rw [hget] at ihb
            have hrest := ihh p (by rw [hget])
            refine ⟨?_, ?_, ?_⟩
            · rw [ihb]
            · intro h hsome
              rw [← hw, hent] at hsome
              cases hsome
            · intro _
              right
              exact ⟨p, hrest.2, by rw [hrest.1]⟩
          · have hhm : headMark wid (p, ch) = false := by
              simp [headMark, blankChar, hblank, hw]
            have hbm : bodyMark wid (p, ch) = false := by
              simp [bodyMark, blankChar, hblank, hw]
            rw [headCellsL_cons, bodyCellsL_cons, hhm, hbm]
            simp only [if_false, Bool.false_eq_true]
            have hget : cmGet (cmSet cm0 ch.toUpper (some p, (cmGet cm0 ch.toUpper).2)) wid
                = cmGet cm0 wid :=
              cmGet_cmSet_ne cm0 ch.toUpper wid _ (fun hcontra => hw hcontra.symm)
            have hres := ih _ cm hok
            rw [hget] at hres
            exact hres
      · have hupf : ch.isUpper = false := by
          cases hcc : ch.isUpper
          · rfl
          · exact absurd hcc hup
        rw [scanStep_body cm0 p ch hblank hupf] at hok
        by_cases hw : ch.toUpper = wid
        · have hhm : headMark wid (p, ch) = false := by
            simp [headMark, blankChar, hblank, hupf]
          have hbm : bodyMark wid (p, ch) = true := by
            simp [bodyMark, blankChar, hblank, hupf, hw]
          rw [headCellsL_cons, bodyCellsL_cons, hhm, hbm]
          simp only [if_true, if_false, Bool.false_eq_true]
          have hget : cmGet (cmSet cm0 ch.toUpper
              ((cmGet cm0 ch.toUpper).1, (cmGet cm0 ch.toUpper).2 ++ [p])) wid
              = ((cmGet cm0 wid).1, (cmGet cm0 wid).2 ++ [p]) := by
            rw [← hw, cmGet_cmSet_eq]
          obtain ⟨ihb, ihh, ihn⟩ := ih _ cm hok
          rw [hget] at ihb ihh ihn
          refine ⟨?_, ?_, ?_⟩
          · rw [ihb]
            simp
          · exact fun h hsome => ihh h hsome
          · exact fun hnone => ihn hnone
        · have hhm : headMark wid (p, ch) = false := by
            simp [headMark, blankChar, hblank, hw]
          have hbm : bodyMark wid (p, ch) = false := by
            simp [bodyMark, blankChar, hblank, hw]
          rw [headCellsL_cons, bodyCellsL_cons, hhm, hbm]
          simp only [if_false, Bool.false_eq_true]
          have hget : cmGet (cmSet cm0 ch.toUpper
              ((cmGet cm0 ch.toUpper).1, (cmGet cm0 ch.toUpper).2 ++ [p])) wid
              = cmGet cm0 wid :=
            cmGet_cmSet_ne cm0 ch.toUpper wid _ (fun hcontra => hw hcontra.symm)
          have hres := ih _ cm hok
          rw [hget] at hres
          exact hres

theorem scanFold_ok :
    ∀ (L : List (Pos × Char)) (cm0 : CellMap),
      (∀ wid : Char, ((cmGet cm0 wid).1 = none → (headCellsL L wid).length ≤ 1)
        ∧ (∀ h : Pos, (cmGet cm0 wid).1 = some h → headCellsL L wid = [])) →
      ∃ cm, foldlExcept scanStep cm0 L = .ok cm := by
  intro L
  induction L with
  | nil => exact fun cm0 _ => ⟨cm0, rfl⟩
  | cons pc rest ih =>
    obtain ⟨p, ch⟩ := pc
    intro cm0 hyp
    by_cases hblank : ch = '.' ∨ ch = ' '
    · obtain ⟨cm, hcm⟩ := ih cm0 (fun wid => by
        have hw := hyp wid
        have hhm : headMark wid (p, ch) = false := by simp [headMark, blankChar, hblank]
        rw [headCellsL_cons, hhm] at hw
        simpa using hw)
      refine ⟨cm, ?_⟩
      rw [foldlExcept, scanStep_blank cm0 p ch hblank]
      exact hcm
    · by_cases hup : ch.isUpper
      · cases hent : (cmGet cm0 ch.toUpper).1 with
        | some hp =>
          exfalso
          have h2 := (hyp ch.toUpper).2 hp hent
          have hhm : headMark ch.toUpper (p, ch) = true := by
            simp [headMark, blankChar, hblank, hup]
          rw [headCellsL_cons, hhm] at h2
          simp at h2
        | none =>
          have hone : (headCellsL ((p, ch) :: rest) ch.toUpper).length ≤ 1 :=
            (hyp ch.toUpper).1 hent
          have hhm : headMark ch.toUpper (p, ch) = true := by
            simp [headMark, blankChar, hblank, hup]
          rw [headCellsL_cons, hhm] at hone
          simp only [if_true] at hone
          have hrest0 : headCellsL rest ch.toUpper = [] := by
            cases hrc : headCellsL rest ch.toUpper with
            | nil => rfl
            | cons a l => rw [hrc] at hone; simp at hone
          obtain ⟨cm, hcm⟩ := ih (cmSet cm0 ch.toUpper (some p, (cmGet cm0 ch.toUpper).2))
            (fun wid => by
              by_cases hw : wid = ch.toUpper
              · subst hw
                rw [cmGet_cmSet_eq]
                constructor
                · intro hcontra
                  simp at hcontra
                · intro h hh
                  exact hrest0
              · rw [cmGet_cmSet_ne cm0 ch.toUpper wid _ hw]
                have hyp2 := hyp wid
                have hne2 : ch.toUpper ≠ wid := fun hcontra => hw hcontra.symm
                have hhm2 : headMark wid (p, ch) = false := by
                  simp [headMark, blankChar, hblank, hne2]
                rw [headCellsL_cons, hhm2] at hyp2
                simpa using hyp2)
          refine ⟨cm, ?_⟩
          rw [foldlExcept, scanStep_head_none cm0 p ch hblank hup hent]
          exact hcm
      · have hupf : ch.isUpper = false := by
          cases hcc : ch.isUpper
          · rfl
          · exact absurd hcc hup
        obtain ⟨cm, hcm⟩ := ih (cmSet cm0 ch.toUpper
            ((cmGet cm0 ch.toUpper).1, (cmGet cm0 ch.toUpper).2 ++ [p]))
          (fun wid => by
            have hhm2 : headMark wid (p, ch) = false := by
              simp [headMark, blankChar, hblank, hupf]
            by_cases hw : wid = ch.toUpper
            · subst hw
              rw [cmGet_cmSet_eq]
              have hyp2 := hyp ch.toUpper
              rw [headCellsL_cons, hhm2] at hyp2
              simpa using hyp2
            · rw [cmGet_cmSet_ne cm0 ch.toUpper wid _ hw]
              have hyp2 := hyp wid
              rw [headCellsL_cons, hhm2] at hyp2
              simpa using hyp2)
        refine ⟨cm, ?_⟩
        rw [foldlExcept, scanStep_body cm0 p ch hblank hupf]
        exact hcm

/-! ## Effectful map lemmas -/

theorem mapMExcept_error_of_mem (f : α → Except String β) :
    ∀ (l : List α) (x : α), x ∈ l → (∃ e, f x = .error e) →
      ∃ e2, mapMExcept f l = .error e2 := by
  intro l
  induction l with
  | nil => intro x hx; cases hx
  | cons y ys ih =>
    rintro x hx ⟨e, he⟩
    rw [mapMExcept]
    cases hfy : f y with
    | error e2 => exact ⟨e2, rfl⟩
    | ok b =>
      have hxy : x ∈ ys := by
        rcases List.mem_cons.mp hx with rfl | hmem
        · rw [he] at hfy; cases hfy
        · exact hmem
      obtain ⟨e2, h2⟩ := ih x hxy ⟨e, he⟩
      rw [h2]
      exact ⟨e2, rfl⟩

theorem mapMExcept_ok_forall (f : α → Except String β) (R : α → β → Prop)
    (hR : ∀ a b, f a = .ok b → R a b) :
    ∀ l : List α, (∀ x ∈ l, ∃ b, f x = .ok b) →
      ∃ bs, mapMExcept f l = .ok bs ∧ List.Forall₂ R l bs := by
  intro l
  induction l with
  | nil => exact fun _ => ⟨[], rfl, List.Forall₂.nil⟩
  | cons y ys ih =>
    intro hall
    obtain ⟨b, hb⟩ := hall y (List.mem_cons_self y ys)
    obtain ⟨bs, hbs, hrel⟩ := ih (fun x hx => hall x (List.mem_cons_of_mem y hx))
    refine ⟨b :: bs, ?_, List.Forall₂.cons (hR y b hb) hrel⟩
    rw [mapMExcept, hb, hbs]

/-! ## buildWorm shape lemmas -/

theorem buildWorm_missing (cm : CellMap) (wm : Char × WormMeta)
    (h : cm.lookup wm.1 = none) : ∃ e, buildWorm cm wm = .error e := by
  simp only [buildWorm]
  rw [h]
  exact ⟨_, rfl⟩

theorem buildWorm_noHead (cm : CellMap) (wm : Char × WormMeta) (info : CMEntry)
    (h : cm.lookup wm.1 = some info) (h2 : info.1 = none) :
    ∃ e, buildWorm cm wm = .error e := by
  simp only [buildWorm]
  rw [h]
  dsimp only
  rw [h2]
  exact ⟨_, rfl⟩

theorem buildWorm_viol (cm : CellMap) (wm : Char × WormMeta) (info : CMEntry) (hd q : Pos)
    (h : cm.lookup wm.1 = some info) (h2 : info.1 = some hd)
    (h3 : info.2.find? (leViol wm.2.direction hd) = some q) :
    ∃ e, buildWorm cm wm = .error e := by
  simp only [buildWorm]
  rw [h]
  dsimp only
  rw [h2]
  dsimp only
  rw [h3]
  exact ⟨_, rfl⟩

theorem buildWorm_ok (cm : CellMap) (wm : Char × WormMeta) (info : CMEntry) (hd : Pos) (d : Dir)
    (h : cm.lookup wm.1 = some info) (h2 : info.1 = some hd)
    (h3 : info.2.find? (leViol wm.2.direction hd) = none)
    (h4 : parseDir wm.2.direction = .ok d) :
    buildWorm cm wm
      = .ok ⟨wm.1, insSort (sortKeyLe d) (info.2 ++ [hd]), d, wm.2.color.getD "white"⟩ := by
  simp only [buildWorm]
  rw [h]
  dsimp only
  rw [h2]
  dsimp only
  rw [h3]
  dsimp only
  rw [h4]

/-! ## Claim theorems: parser rejection (C9) -/

/-- C9 (amended): load_level rejects a layout whenever some id has more
than one head cell on the grid, whenever an id of the metadata mapping
has no head cell on the grid (in particular when it does not appear on
the grid at all), or whenever a metadata id has a body cell strictly
further along its facing direction than its head. -/
theorem load_level_rejects (ld : LevelData)
    (h : hasMultiHead ld.grid ∨ metaWithoutHead ld ∨ metaBodyBeyondHead ld) :
    loadRejects ld = true := by
  unfold loadRejects load_level
  cases hscan : foldlExcept scanStep ([] : CellMap) (scanCells ld.grid) with
  | error e => rfl
  | ok cm =>
    dsimp only
    rcases h with hmh | hnh | hbb
    · exfalso
      obtain ⟨pc, _, hlen⟩ := hmh
      have hf := scanFold_facts pc.2.toUpper (scanCells ld.grid) [] cm hscan
      rcases hf.2.2 rfl with ⟨_, hempty⟩ | ⟨h2, _, hone⟩
      · unfold headCells at hlen
        rw [hempty] at hlen
        simp at hlen
      · unfold headCells at hlen
        rw [hone] at hlen
        simp at hlen
    · obtain ⟨wm, hwm, hhc⟩ := hnh
      have herr : ∃ e, buildWorm cm wm = .error e := by
        cases hlk : cm.lookup wm.1 with
        | none => exact buildWorm_missing cm wm hlk
        | some info =>
          have hget : cmGet cm wm.1 = info := by unfold cmGet; rw [hlk]; rfl
          have hf := scanFold_facts wm.1 (scanCells ld.grid) [] cm hscan
          rcases hf.2.2 rfl with ⟨hn, _⟩ | ⟨h2, _, hone⟩
          · rw [hget] at hn
            exact buildWorm_noHead cm wm info hlk hn
          · exfalso
            unfold headCells at hhc
            rw [hhc] at hone
            cases hone
      obtain ⟨e2, h2⟩ := mapMExcept_error_of_mem (buildWorm cm) ld.worms wm hwm herr
      rw [h2]
    · obtain ⟨wm, hwm, hh, hhmem, hb, hbmem, hviol⟩ := hbb
      have herr : ∃ e, buildWorm cm wm = .error e := by
        have hf := scanFold_facts wm.1 (scanCells ld.grid) [] cm hscan
        rcases hf.2.2 rfl with ⟨_, hempty⟩ | ⟨h2, hsome, hone⟩
        · exfalso
          unfold headCells at hhmem
          rw [hempty] at hhmem
          cases hhmem
        · have hh2 : hh = h2 := by
            unfold headCells at hhmem
            rw [hone] at hhmem
            simpa using hhmem
          cases hlk : cm.lookup wm.1 with
          | none =>
            exfalso
            have hdf : cmGet cm wm.1 = (none, []) := by unfold cmGet; rw [hlk]; rfl
            rw [hdf] at hsome
            cases hsome
          | some info =>
            have hget : cmGet cm wm.1 = info := by unfold cmGet; rw [hlk]; rfl
            rw [hget] at hsome
            have hbody : hb ∈ info.2 := by
              have hbf := hf.1
              rw [hget] at hbf
              unfold bodyCells at hbmem
              rw [hbf, List.mem_append]
              exact Or.inr hbmem
            have hfind : (info.2.find? (leViol wm.2.direction h2)).isSome := by
              rw [List.find?_isSome]
              exact ⟨hb, hbody, by rw [← hh2]; exact hviol⟩
            obtain ⟨q, hq⟩ := Option.isSome_iff_exists.mp hfind
            exact buildWorm_viol cm wm info h2 q hlk hsome hq
      obtain ⟨e2, h2⟩ := mapMExcept_error_of_mem (buildWorm cm) ld.worms wm hwm herr
      rw [h2]

/-- Hypothesis witness for C9: a grid with two head cells for the same id
is rejected by load_level. -/
theorem load_level_rejects_witness :
    (hasMultiHead c9WitLevel.grid ∨ metaWithoutHead c9WitLevel ∨ metaBodyBeyondHead c9WitLevel)
      ∧ loadRejects c9WitLevel = true :=
  ⟨Or.inl (by decide), load_level_rejects c9WitLevel (Or.inl (by decide))⟩

/-- C8: if the first worm cannot be placed within the retry budget,
generate_level returns no layout with the hard-failure message; if a
later worm cannot be placed, the placement loop stops gracefully keeping
the worms placed so far, and generate_level returns a layout built from
them with the placed-fewer status message, not an error. -/
theorem generation_failure_modes (rows cols num_worms min_len max_len : Int) (rng : RNG) :
    (0 < num_worms →
      (tryPlaceWorm rows cols (max (min_len - 1) 0) (max_len - 1) (max rows cols - 2) [] [] 300
        rng).1 = none →
      generate_level rows cols num_worms min_len max_len rng = (none, [], hardFailMsg))
    ∧ (∀ (i n : Nat) (occupied : List Pos) (corridors : List (List Pos))
        (placed : List PlacedWorm) (rng1 : RNG), i ≠ 0 →
        (tryPlaceWorm rows cols (max (min_len - 1) 0) (max_len - 1)
            ((max rows cols).fdiv 2 + 1) occupied
            ((corridors.foldl (fun a b => a ++ b) []).filter (fun p => ¬ p ∈ occupied)) 300
            rng1).1 = none →
        genLoop rows cols (max (min_len - 1) 0) (max_len - 1) i (n + 1) occupied corridors placed
            rng1
          = some (placed,
              (tryPlaceWorm rows cols (max (min_len - 1) 0) (max_len - 1)
                ((max rows cols).fdiv 2 + 1) occupied
                ((corridors.foldl (fun a b => a ++ b) []).filter (fun p => ¬ p ∈ occupied)) 300
                rng1).2))
    ∧ (∀ placed : List PlacedWorm,
        Option.map Prod.fst
            (genLoop rows cols (max (min_len - 1) 0) (max_len - 1) 0 num_worms.toNat [] [] [] rng)
          = some placed →
        0 < placed.length → (placed.length : Int) < num_worms →
        generate_level rows cols num_worms min_len max_len rng
          = (some (mkLevelData rows cols placed), placed.map (fun wd => wd.worm_id),
             fewerMsg placed.length num_worms)) := by
  refine ⟨?_, ?_, ?_⟩
  · intro hpos htp
    obtain ⟨n, hn⟩ : ∃ n : Nat, num_worms.toNat = n + 1 := by
      refine ⟨num_worms.toNat - 1, ?_⟩
      omega
    rcases htp2 : tryPlaceWorm rows cols (max (min_len - 1) 0) (max_len - 1)
        (max rows cols - 2) [] [] 300 rng with ⟨res, rng2⟩
    rw [htp2] at htp
    simp only at htp
    subst htp
    simp only [generate_level, hn, genLoop, List.foldl_nil, List.filter_nil, eq_self_iff_true,
      ite_true]
    rw [htp2]
  · intro i n occupied corridors placed rng1 hi htp
    rcases htp2 : tryPlaceWorm rows cols (max (min_len - 1) 0) (max_len - 1)
        ((max rows cols).fdiv 2 + 1) occupied
        ((corridors.foldl (fun a b => a ++ b) []).filter (fun p => ¬ p ∈ occupied)) 300
        rng1 with ⟨res, rng2⟩
    rw [htp2] at htp
    simp only at htp
    subst htp
    simp only [genLoop, hi, if_false, ite_false]
    rw [htp2]
  · intro placed hloop hpos hlt
    rcases hfull : genLoop rows cols (max (min_len - 1) 0) (max_len - 1) 0 num_worms.toNat
        [] [] [] rng with _ | pr
    · rw [hfull] at hloop
      cases hloop
    · obtain ⟨placed2, rng2⟩ := pr
      rw [hfull] at hloop
      have hp2 : placed2 = placed := by simpa using hloop
      subst hp2
      have hne : placed2 ≠ [] := by
        intro hcontra
        rw [hcontra] at hpos
        simp at hpos
      simp only [generate_level]
      rw [hfull]
      dsimp only
      rw [if_neg hne, if_pos hlt]

/-- Hypothesis witnesses for C8: a 1x1 grid fails on the first worm with
the hard-failure message; on a 3x3 grid asking for nine one-cell worms
the loop stops after seven and reports the placed-fewer message; a
failing later placement keeps the worms placed so far. -/
theorem generation_failure_modes_witness :
    generate_level 1 1 1 1 1 rngZero = (none, [], hardFailMsg)
      ∧ genLoop 1 1 (max ((1 : Int) - 1) 0) ((1 : Int) - 1) 1 1 [] [] [pwWit] rngZero
          = some ([pwWit],
              (tryPlaceWorm 1 1 (max ((1 : Int) - 1) 0) ((1 : Int) - 1)
                ((max (1 : Int) 1).fdiv 2 + 1) []
                ((List.foldl (fun a b => a ++ b) [] []).filter (fun p => ¬ p ∈ ([] : List Pos)))
                300 rngZero).2)
      ∧ generate_level 3 3 9 1 1 rngZero
          = (some (mkLevelData 3 3 ((Option.map Prod.fst
                (genLoop 3 3 (max ((1 : Int) - 1) 0) ((1 : Int) - 1) 0 (9 : Int).toNat [] [] []
                  rngZero)).getD [])),
             ((Option.map Prod.fst
                (genLoop 3 3 (max ((1 : Int) - 1) 0) ((1 : Int) - 1) 0 (9 : Int).toNat [] [] []
                  rngZero)).getD []).map (fun wd => wd.worm_id),
             fewerMsg ((Option.map Prod.fst
                (genLoop 3 3 (max ((1 : Int) - 1) 0) ((1 : Int) - 1) 0 (9 : Int).toNat [] [] []
                  rngZero)).getD []).length 9) :=
  ⟨(generation_failure_modes 1 1 1 1 1 rngZero).1 (by decide) (by decide),
   (generation_failure_modes 1 1 1 1 1 rngZero).2.1 1 0 [] [] [pwWit] rngZero
     (by decide) (by decide),
   (generation_failure_modes 3 3 9 1 1 rngZero).2.2 _ (by decide) (by decide) (by decide)⟩

/-! ## Generator placement postconditions (towards C1 and C2) -/

theorem pickHeadDepths_post (edge_r edge_c : Int) (d0 : Dir) (rows cols : Int)
    (occupied : List Pos) :
    ∀ (depths : List Int) (hr hc : Int) (d : Dir) (corr : List Pos),
      pickHeadDepths edge_r edge_c d0 rows cols occupied depths = some (hr, hc, d, corr) →
      inB rows cols (hr, hc) ∧ ¬ (hr, hc) ∈ occupied ∧ d = d0
        ∧ corr = exit_corridor hr hc d0 rows cols
        ∧ ∀ p ∈ corr, ¬ p ∈ occupied := by
  intro depths
  induction depths with
  | nil => intro hr hc d corr h; cases h
  | cons depth rest ih =>
    intro hr hc d corr h
    simp only [pickHeadDepths] at h
    split at h
    · exact ih hr hc d corr h
    · split at h
      · exact ih hr hc d corr h
      · split at h
        · exact ih hr hc d corr h
        · rename_i hinb hocc hany
          simp only [Option.some.injEq, Prod.mk.injEq] at h
          obtain ⟨e1, e2, e3, e4⟩ := h
          subst e1; subst e2; subst e3; subst e4
          refine ⟨by simpa using hinb, hocc, rfl, rfl, ?_⟩
          intro p hp hpo
          apply hany
          rw [List.any_eq_true]
          exact ⟨p, hp, by simpa using hpo⟩

theorem pickHeadEdges_post (rows cols : Int) (occupied : List Pos) (minD maxD : Int) :
    ∀ (edges : List (Int × Int × Dir)) (rng : RNG) (hr hc : Int) (d : Dir) (corr : List Pos)
      (rng2 : RNG),
      pickHeadEdges rows cols occupied minD maxD edges rng = (some (hr, hc, d, corr), rng2) →
      inB rows cols (hr, hc) ∧ ¬ (hr, hc) ∈ occupied
        ∧ corr = exit_corridor hr hc d rows cols
        ∧ ∀ p ∈ corr, ¬ p ∈ occupied := by
  intro edges
  induction edges with
  | nil => intro rng hr hc d corr rng2 h; cases h
  | cons e rest ih =>
    obtain ⟨edge_r, edge_c, d0⟩ := e
    intro rng hr hc d corr rng2 h
    simp only [pickHeadEdges] at h
    split at h
    · rename_i res hdep
      simp only [Prod.mk.injEq, Option.some.injEq] at h
      obtain ⟨h1, _⟩ := h
      subst h1
      have hpost := pickHeadDepths_post edge_r edge_c d0 rows cols occupied _ hr hc d corr hdep
      refine ⟨hpost.1, hpost.2.1, ?_, hpost.2.2.2.2⟩
      rw [hpost.2.2.2.1, hpost.2.2.1]
    · exact ih _ hr hc d corr rng2 h

theorem pick_head_post (rows cols : Int) (occupied : List Pos) (minD : Int)
    (maxD : Option Int) (rng : RNG) (hr hc : Int) (d : Dir) (corr : List Pos) (rng2 : RNG)
    (h : pick_head rows cols occupied minD maxD rng = (some (hr, hc, d, corr), rng2)) :
    inB rows cols (hr, hc) ∧ ¬ (hr, hc) ∈ occupied
      ∧ corr = exit_corridor hr hc d rows cols
      ∧ ∀ p ∈ corr, ¬ p ∈ occupied := by
  unfold pick_head at h
  exact pickHeadEdges_post rows cols occupied minD _ _ _ hr hc d corr rng2 h

theorem growBodyWalk_inv (d : Dir) (hr hc : Int) (targets : List Pos) (rows cols : Int)
    (occupied : List Pos) :
    ∀ (steps : Nat) (cur : Pos) (body taken : List Pos) (rng : RNG),
      taken = occupied ++ (hr, hc) :: body →
      ((hr, hc) :: body).Nodup →
      (∀ p ∈ body, inB rows cols p ∧ ¬ p ∈ occupied ∧ walkValid d hr hc p = true) →
      (∀ p ∈ (growBodyWalk d hr hc targets rows cols steps cur body taken rng).1,
          inB rows cols p ∧ ¬ p ∈ occupied ∧ walkValid d hr hc p = true)
        ∧ ((hr, hc) :: (growBodyWalk d hr hc targets rows cols steps cur body taken rng).1).Nodup := by
  intro steps
  induction steps with
  | zero =>
    intro cur body taken rng _ hnd hprops
    exact ⟨hprops, hnd⟩
  | succ steps ih =>
    intro cur body taken rng htaken hnd hprops
    simp only [growBodyWalk]
    split
    · exact ⟨hprops, hnd⟩
    · split
      · exact ⟨hprops, hnd⟩
      · rename_i hcand pnew hch
        have hmem : pnew ∈ ((ALL_DIRS.map (fun dd => (cur.1 + dd.1, cur.2 + dd.2))).filter
            (fun p => inB rows cols p ∧ ¬ p ∈ taken ∧ walkValid d hr hc p = true)) := by
          simp only [pyChoice] at hch
          have hin := List.get?_mem hch
          rcases List.mem_flatMap.mp hin with ⟨q, hq, hrep⟩
          rwa [List.eq_of_mem_replicate hrep]
        have hfilt := List.mem_filter.mp hmem
        have hconds : inB rows cols pnew ∧ ¬ pnew ∈ taken ∧ walkValid d hr hc pnew = true := by
          have h2 := hfilt.2
          simpa using h2
        obtain ⟨hinb, hnotaken, hvalid⟩ := hconds
        have hnotocc : ¬ pnew ∈ occupied := fun hcontra =>
          hnotaken (by rw [htaken]; exact List.mem_append_left _ hcontra)
        have hnothead : pnew ≠ (hr, hc) := fun hcontra =>
          hnotaken (by rw [htaken, hcontra]; exact List.mem_append_right _ (List.mem_cons_self _ _))
        have hnotbody : ¬ pnew ∈ body := fun hcontra =>
          hnotaken (by rw [htaken]; exact List.mem_append_right _ (List.mem_cons_of_mem _ hcontra))
        apply ih pnew (body ++ [pnew]) (taken ++ [pnew])
        · rw [htaken]
          simp
        · simp only [List.nodup_cons] at hnd ⊢
          refine ⟨?_, ?_⟩
          · intro hcontra
            rcases List.mem_append.mp hcontra with hcl | hcr
            · exact hnd.1 hcl
            · exact hnothead (List.mem_singleton.mp hcr).symm
          · rw [List.nodup_append]
            exact ⟨hnd.2, List.nodup_singleton pnew,
              fun a ha hb => hnotbody (by rwa [List.mem_singleton.mp hb] at ha)⟩
        · intro p hp
          rcases List.mem_append.mp hp with hpl | hpr
          · exact hprops p hpl
          · rw [List.mem_singleton.mp hpr]
            exact ⟨hinb, hnotocc, hvalid⟩

theorem grow_body_post (hr hc : Int) (d : Dir) (occupied targets : List Pos)
    (mb xb rows cols : Int) (rng : RNG) (body : List Pos) (rng2 : RNG)
    (h : grow_body hr hc d occupied targets mb xb rows cols rng = (some body, rng2)) :
    (∀ p ∈ body, inB rows cols p ∧ ¬ p ∈ occupied ∧ walkValid d hr hc p = true)
      ∧ (body ++ [(hr, hc)]).Nodup := by
  simp only [grow_body] at h
  split at h
  · simp only [Prod.mk.injEq, Option.some.injEq] at h
    rw [← h.1]
    constructor
    · intro p hp; cases hp
    · simp
  · split at h
    · simp at h
    · simp only [Prod.mk.injEq, Option.some.injEq] at h
      have hwalk := growBodyWalk_inv d hr hc targets rows cols occupied
        (randInt rng mb xb).1.toNat (hr, hc) [] (occupied ++ [(hr, hc)])
        (randInt rng mb xb).2 (by simp) (by simp) (by intro p hp; cases hp)
      rw [← h.1]
      constructor
      · intro p hp
        exact hwalk.1 p (List.mem_reverse.mp hp)
      · have hnd := hwalk.2
        rw [List.nodup_cons] at hnd
        rw [List.nodup_append]
        refine ⟨List.nodup_reverse.mpr hnd.2, List.nodup_singleton _, ?_⟩
        intro a ha hb
        rw [List.mem_singleton.mp hb] at ha
        exact hnd.1 (List.mem_reverse.mp ha)

theorem tryPlaceWorm_post (rows cols mb xb maxD : Int) (occupied targets : List Pos) :
    ∀ (att : Nat) (rng : RNG) (hr hc : Int) (d : Dir) (corr body : List Pos) (rng2 : RNG),
      tryPlaceWorm rows cols mb xb maxD occupied targets att rng
        = (some (hr, hc, d, corr, body), rng2) →
      inB rows cols (hr, hc) ∧ ¬ (hr, hc) ∈ occupied
        ∧ corr = exit_corridor hr hc d rows cols
        ∧ (∀ p ∈ corr, ¬ p ∈ occupied)
        ∧ (∀ p ∈ body, inB rows cols p ∧ ¬ p ∈ occupied ∧ walkValid d hr hc p = true)
        ∧ (body ++ [(hr, hc)]).Nodup := by
  intro att
  induction att with
  | zero => intro rng hr hc d corr body rng2 h; cases h
  | succ att ih =>
    intro rng hr hc d corr body rng2 h
    rw [tryPlaceWorm] at h
    split at h
    · rename_i rngA hph
      cases h
    · rename_i hr0 hc0 d0 corr0 rngA hph
      split at h
      · rename_i rngB hgb
        exact ih rngB hr hc d corr body rng2 h
      · rename_i body0 rngB hgb
        simp only [Prod.mk.injEq, Option.some.injEq] at h
        obtain ⟨⟨e1, e2, e3, e4, e5⟩, _⟩ := h
        subst e1; subst e2; subst e3; subst e4; subst e5
        have hpost2 := pick_head_post rows cols occupied 1 (some maxD) rng hr0 hc0 d0 corr0
          rngA hph
        have hgpost2 := grow_body_post hr0 hc0 d0 occupied targets mb xb rows cols rngA body0
          rngB hgb
        exact ⟨hpost2.1, hpost2.2.1, hpost2.2.2.1, hpost2.2.2.2, hgpost2.1, hgpost2.2⟩

theorem idsUpTo_concat (n : Nat) : idsUpTo (n + 1) = idsUpTo n ++ [Char.ofNat (65 + n)] := by
  unfold idsUpTo
  rw [List.range_succ, List.map_append]
  rfl

theorem genLoop_post (rows cols mb xb : Int) :
    ∀ (n i : Nat) (occupied : List Pos) (corridors : List (List Pos)) (placed : List PlacedWorm)
      (rng : RNG) (placed2 : List PlacedWorm) (rng2 : RNG),
      genLoop rows cols mb xb i n occupied corridors placed rng = some (placed2, rng2) →
      GoodPlaced rows cols placed →
      (∀ p : Pos, p ∈ occupied ↔ ∃ wd ∈ placed, p ∈ wd.segments) →
      placed.map (fun wd => wd.worm_id) = idsUpTo i →
      i = placed.length →
      GoodPlaced rows cols placed2
        ∧ placed2.map (fun wd => wd.worm_id) = idsUpTo placed2.length
        ∧ placed2.length ≤ i + n := by
  intro n
  induction n with
  | zero =>
    intro i occupied corridors placed rng placed2 rng2 h hgood hocc hids hlen
    simp only [genLoop, Option.some.injEq, Prod.mk.injEq] at h
    obtain ⟨rfl, -⟩ := h
    exact ⟨hgood, by rw [hids, hlen], by omega⟩
  | succ n ih =>
    intro i occupied corridors placed rng placed2 rng2 h hgood hocc hids hlen
    simp only [genLoop] at h
    split at h
    · rename_i rngA htp
      split at h
      · cases h
      · simp only [Option.some.injEq, Prod.mk.injEq] at h
        obtain ⟨rfl, -⟩ := h
        exact ⟨hgood, by rw [hids, hlen], by omega⟩
    · rename_i hr0 hc0 d0 corr0 body0 rngA htp
      have hpost := tryPlaceWorm_post rows cols mb xb
        (if i = 0 then max rows cols - 2 else (max rows cols).fdiv 2 + 1) occupied
        ((corridors.foldl (fun a b => a ++ b) []).filter (fun p => ¬ p ∈ occupied)) 300 rng
        hr0 hc0 d0 corr0 body0 rngA htp
      obtain ⟨hinb, hheadfree, hcorr, hcorrfree, hbody, hnodup⟩ := hpost
      have hsegs : (PlacedWorm.mk (Char.ofNat (65 + i)) (hr0, hc0) d0 body0
          (COLOR_CYCLE.getD (i % COLOR_CYCLE.length) "red") (body0 ++ [(hr0, hc0)])).segments
          = body0 ++ [(hr0, hc0)] := rfl
      have hres := ih (i + 1) (occupied ++ (body0 ++ [(hr0, hc0)])) (corridors ++ [corr0])
        (placed ++ [PlacedWorm.mk (Char.ofNat (65 + i)) (hr0, hc0) d0 body0
          (COLOR_CYCLE.getD (i % COLOR_CYCLE.length) "red") (body0 ++ [(hr0, hc0)])])
        rngA placed2 rng2 h ?hgood2 ?hocc2 ?hids2 ?hlen2
      case hgood2 =>
        constructor
        · intro wd hwd
          rcases List.mem_append.mp hwd with hwl | hwr
          · exact hgood.1 wd hwl
          · rw [List.mem_singleton.mp hwr]
            refine ⟨rfl, hinb, ?_, ?_⟩
            · intro p hp
              exact ⟨(hbody p hp).1, (hbody p hp).2.2⟩
            · exact hnodup
        · rw [List.pairwise_append]
          refine ⟨hgood.2, List.pairwise_singleton _ _, ?_⟩
          intro a ha b hb
          rw [List.mem_singleton.mp hb]
          constructor
          · intro p hpa
            have hpo : p ∈ occupied := (hocc p).mpr ⟨a, ha, hpa⟩
            rw [hsegs]
            intro hcontra
            rcases List.mem_append.mp hcontra with hcl | hcr
            · exact (hbody p hcl).2.1 hpo
            · rw [List.mem_singleton.mp hcr] at hpo
              exact hheadfree hpo
          · intro p hpcorr
            have hpc2 : p ∈ corr0 := by
              rw [hcorr]
              exact hpcorr
            intro hcontra
            exact hcorrfree p hpc2 ((hocc p).mpr ⟨a, ha, hcontra⟩)
      case hocc2 =>
        intro p
        constructor
        · intro hp
          rcases List.mem_append.mp hp with hpl | hpr
          · obtain ⟨wd, hwd, hwp⟩ := (hocc p).mp hpl
            exact ⟨wd, List.mem_append_left _ hwd, hwp⟩
          · exact ⟨_, List.mem_append_right _ (List.mem_singleton_self _), by rw [hsegs]; exact hpr⟩
        · rintro ⟨wd, hwd, hwp⟩
          rcases List.mem_append.mp hwd with hwl | hwr
          · exact List.mem_append_left _ ((hocc p).mpr ⟨wd, hwl, hwp⟩)
          · apply List.mem_append_right
            rw [List.mem_singleton.mp hwr] at hwp
            rw [hsegs] at hwp
            exact hwp
      case hids2 =>
        rw [List.map_append, hids, idsUpTo_concat]
        rfl
      case hlen2 =>
        rw [List.length_append, ← hlen]
        rfl
      obtain ⟨g1, g2, g3⟩ := hres
      exact ⟨g1, g2, by omega⟩

/-- C9 counterexample: an id that appears on the grid but not in the
metadata mapping is not rejected; load_level returns without raising,
refuting the grid-id-without-metadata clause of the claim. -/
theorem load_level_accepts_unlisted_id :
    gridIdWithoutMeta c9CexLevel ∧ loadRejects c9CexLevel = false := by
  constructor
  · exact ⟨((0, 0), 'A'), by decide, by decide⟩
  · decide

/-! ## Scanned-cell characterisation of text grids -/

theorem enumFrom_get_mem {α : Type} :
    ∀ (l : List α) (k i : Nat) (x : α), l.get? i = some x → (k + i, x) ∈ l.enumFrom k := by
  intro l
  induction l with
  | nil => intro k i x h; cases h
  | cons a t ih =>
    intro k i x h
    cases i with
    | zero =>
      have h2 : some a = some x := h
      cases h2
      rw [List.enumFrom_cons]
      simp
    | succ i =>
      have h2 : t.get? i = some x := h
      rw [List.enumFrom_cons]
      refine List.mem_cons_of_mem _ ?_
      have hk : k + (i + 1) = (k + 1) + i := by omega
      rw [hk]
      exact ih (k + 1) i x h2

theorem mem_enum_get {α : Type} (l : List α) (i : Nat) (x : α) :
    (i, x) ∈ l.enum ↔ l.get? i = some x := by
  constructor
  · intro h
    obtain ⟨-, hlt, hx⟩ := List.mem_enumFrom h
    rw [List.get?_eq_getElem?, List.getElem?_eq_some]
    exact ⟨by omega, hx.symm⟩
  · intro h
    have := enumFrom_get_mem l 0 i x h
    simpa using this

theorem mem_scanCells (grid : List String) (q : Pos) (ch : Char) :
    (q, ch) ∈ scanCells grid
      ↔ ∃ rn cn : Nat, q = ((rn : Int), (cn : Int)) ∧ strCellAt grid rn cn = some ch := by
  unfold scanCells strCellAt
  rw [List.mem_flatMap]
  constructor
  · rintro ⟨⟨rn, srow⟩, hrrow, hmem⟩
    rw [List.mem_map] at hmem
    obtain ⟨⟨cn, c⟩, hcch, heq⟩ := hmem
    simp only [Prod.mk.injEq] at heq
    obtain ⟨hq, hc⟩ := heq
    refine ⟨rn, cn, hq.symm, ?_⟩
    rw [(mem_enum_get grid rn srow).mp hrrow]
    simp only [Option.bind]
    rw [(mem_enum_get srow.data cn c).mp hcch, hc]
  · rintro ⟨rn, cn, rfl, hcell⟩
    cases hrow : grid.get? rn with
    | none => rw [hrow] at hcell; cases hcell
    | some srow =>
      rw [hrow] at hcell
      simp only [Option.bind] at hcell
      refine ⟨(rn, srow), (mem_enum_get grid rn srow).mpr hrow, ?_⟩
      rw [List.mem_map]
      exact ⟨(cn, ch), (mem_enum_get srow.data cn ch).mpr hcell, rfl⟩

theorem scanRows_nodup :
    ∀ (rws : List String) (k : Nat),
      (((rws.enumFrom k).flatMap (fun rrow =>
          rrow.2.data.enum.map (fun cch => (((rrow.1 : Int), (cch.1 : Int)), cch.2)))).map
        Prod.fst).Nodup := by
  intro rws
  induction rws with
  | nil => intro k; simp
  | cons s rest ih =>
    intro k
    rw [List.enumFrom_cons, List.flatMap_cons, List.map_append, List.nodup_append]
    refine ⟨?_, ih (k + 1), ?_⟩
    · rw [List.map_map]
      apply List.Nodup.map_on
      · intro x hx y hy hxy
        simp only [Function.comp_apply, Prod.mk.injEq] at hxy
        have h1 : x.1 = y.1 := by exact_mod_cast hxy.2
        exact List.inj_on_of_nodup_map
          (by rw [List.enum_map_fst]; exact List.nodup_range _) hx hy h1
      · exact List.Nodup.of_map Prod.fst (by rw [List.enum_map_fst]; exact List.nodup_range _)
    · rw [List.disjoint_left]
      intro a ha hb
      rw [List.map_map, List.mem_map] at ha
      obtain ⟨cch, -, ha2⟩ := ha
      rw [List.mem_map] at hb
      obtain ⟨pc, hpc, hb2⟩ := hb
      rw [List.mem_flatMap] at hpc
      obtain ⟨⟨rn, srow⟩, hrrow, hpc2⟩ := hpc
      rw [List.mem_map] at hpc2
      obtain ⟨cch2, -, hpc3⟩ := hpc2
      obtain ⟨hge, -, -⟩ := List.mem_enumFrom hrrow
      simp only [Function.comp_apply] at ha2
      rw [← hpc3] at hb2
      rw [← ha2] at hb2
      simp only [Prod.mk.injEq] at hb2
      have h1 : ((rn : Int)) = ((k : Int)) := hb2.1
      omega

theorem scanCells_pos_nodup (grid : List String) : ((scanCells grid).map Prod.fst).Nodup :=
  scanRows_nodup grid 0

theorem mem_headCellsL (cells : List (Pos × Char)) (wid : Char) (q : Pos) :
    q ∈ headCellsL cells wid ↔ ∃ ch, (q, ch) ∈ cells ∧ headMark wid (q, ch) = true := by
  unfold headCellsL
  rw [List.mem_map]
  constructor
  · rintro ⟨⟨p, c⟩, hpc, rfl⟩
    rw [List.mem_filter] at hpc
    exact ⟨c, hpc.1, hpc.2⟩
  · rintro ⟨c, hmem, hmark⟩
    exact ⟨(q, c), List.mem_filter.mpr ⟨hmem, hmark⟩, rfl⟩

theorem mem_bodyCellsL (cells : List (Pos × Char)) (wid : Char) (q : Pos) :
    q ∈ bodyCellsL cells wid ↔ ∃ ch, (q, ch) ∈ cells ∧ bodyMark wid (q, ch) = true := by
  unfold bodyCellsL
  rw [List.mem_map]
  constructor
  · rintro ⟨⟨p, c⟩, hpc, rfl⟩
    rw [List.mem_filter] at hpc
    exact ⟨c, hpc.1, hpc.2⟩
  · rintro ⟨c, hmem, hmark⟩
    exact ⟨(q, c), List.mem_filter.mpr ⟨hmem, hmark⟩, rfl⟩

theorem headCellsL_nodup (cells : List (Pos × Char)) (wid : Char)
    (h : (cells.map Prod.fst).Nodup) : (headCellsL cells wid).Nodup :=
  List.Nodup.sublist (List.Sublist.map Prod.fst (List.filter_sublist cells)) h

theorem nodup_eq_singleton {α : Type} {l : List α} {a : α}
    (hnd : l.Nodup) (hmem : a ∈ l) (hall : ∀ x ∈ l, x = a) : l = [a] := by
  cases l with
  | nil => cases hmem
  | cons b t =>
    have hb : b = a := hall b (List.mem_cons_self b t)
    subst hb
    have ht : t = [] := by
      rw [List.eq_nil_iff_forall_not_mem]
      intro x hx
      have hxa := hall x (List.mem_cons_of_mem _ hx)
      subst hxa
      exact (List.nodup_cons.mp hnd).1 hx
    rw [ht]

theorem find?_eq_some_of_unique {α : Type} {p : α → Bool} :
    ∀ {l : List α} {a : α}, a ∈ l → p a = true → (∀ x ∈ l, p x = true → x = a) →
      l.find? p = some a := by
  intro l
  induction l with
  | nil => intro a h; cases h
  | cons b t ih =>
    intro a hmem hpa huniq
    by_cases hpb : p b = true
    · rw [List.find?_cons_of_pos t hpb, huniq b (List.mem_cons_self b t) hpb]
    · rw [List.find?_cons_of_neg t hpb]
      have hat : a ∈ t := by
        rcases List.mem_cons.mp hmem with rfl | hmm
        · exact absurd hpa hpb
        · exact hmm
      exact ih hat hpa (fun x hx hpx => huniq x (List.mem_cons_of_mem _ hx) hpx)

/-! ## Rendered-grid characterisation -/

theorem writeCell_dims (rows cols : Int) (g : List (List Char)) (r c : Int) (ch : Char)
    (hg1 : g.length = rows.toNat) (hg2 : ∀ row ∈ g, row.length = cols.toNat)
    (hin : inB rows cols (r, c)) :
    (writeCell g r c ch).length = rows.toNat
      ∧ ∀ row ∈ writeCell g r c ch, row.length = cols.toNat := by
  obtain ⟨h1, h2, h3, h4⟩ := hin
  unfold writeCell
  rw [if_pos ⟨h1, h3⟩]
  refine ⟨by rw [List.length_set, hg1], ?_⟩
  intro row hrow
  rcases List.mem_or_eq_of_mem_set hrow with hmem | heq
  · exact hg2 row hmem
  · subst heq
    rw [List.length_set]
    have hrt : r.toNat < g.length := by omega
    rw [List.getD_eq_getElem?_getD, List.getElem?_eq_getElem hrt, Option.getD_some]
    exact hg2 _ (List.getElem_mem hrt)

theorem cellAt_writeCell_self (rows cols : Int) (g : List (List Char)) (r c : Int) (ch : Char)
    (hg1 : g.length = rows.toNat) (hg2 : ∀ row ∈ g, row.length = cols.toNat)
    (hin : inB rows cols (r, c)) :
    cellAt (writeCell g r c ch) (r, c) = some ch := by
  obtain ⟨h1, h2, h3, h4⟩ := hin
  have hrt : r.toNat < g.length := by omega
  have hrow : (g.getD r.toNat []).length = cols.toNat := by
    rw [List.getD_eq_getElem?_getD, List.getElem?_eq_getElem hrt, Option.getD_some]
    exact hg2 _ (List.getElem_mem hrt)
  have hct : c.toNat < (g.getD r.toNat []).length := by omega
  unfold writeCell cellAt
  rw [if_pos ⟨h1, h3⟩]
  dsimp only
  rw [List.get?_eq_getElem?, List.getElem?_set_self hrt]
  simp only [Option.bind]
  rw [List.get?_eq_getElem?, List.getElem?_set_self hct]

theorem cellAt_writeCell_ne (g : List (List Char)) (r c : Int) (ch : Char) (q : Pos)
    (hq : q ≠ (r, c)) (hq1 : 0 ≤ q.1) (hq2 : 0 ≤ q.2) :
    cellAt (writeCell g r c ch) q = cellAt g q := by
  unfold writeCell cellAt
  by_cases hrc : 0 ≤ r ∧ 0 ≤ c
  case neg => rw [if_neg hrc]
  rw [if_pos hrc]
  by_cases hrow : q.1.toNat = r.toNat
  · have hq1r : q.1 = r := by omega
    have hcne : q.2 ≠ c := by
      intro hcontra
      exact hq (by rw [Prod.ext_iff]; exact ⟨hq1r, hcontra⟩)
    have hctne : c.toNat ≠ q.2.toNat := by omega
    rw [hrow, List.get?_eq_getElem?, List.get?_eq_getElem?]
    cases hget : g[r.toNat]? with
    | none =>
      have hnl : ¬ r.toNat < g.length := by
        intro hcon
        rw [List.getElem?_eq_getElem hcon] at hget
        cases hget
      rw [List.getElem?_set, if_pos rfl, if_neg hnl]
    | some row =>
      have hlt : r.toNat < g.length := by
        rcases List.getElem?_eq_some.mp hget with ⟨h, _⟩
        exact h
      rw [List.getElem?_set_self hlt]
      simp only [Option.bind]
      have hgd : g.getD r.toNat [] = row := by
        rw [List.getD_eq_getElem?_getD, hget, Option.getD_some]
      rw [hgd, List.get?_eq_getElem?, List.get?_eq_getElem?, List.getElem?_set_ne hctne]
  · rw [List.get?_eq_getElem?, List.get?_eq_getElem?,
      List.getElem?_set_ne (fun hcon => hrow hcon.symm)]

theorem foldWrite_dims (rows cols : Int) (c : Char) :
    ∀ (ps : List Pos) (g : List (List Char)),
      g.length = rows.toNat → (∀ row ∈ g, row.length = cols.toNat) →
      (∀ p ∈ ps, inB rows cols p) →
      (ps.foldl (fun g2 bp => writeCell g2 bp.1 bp.2 c) g).length = rows.toNat
        ∧ ∀ row ∈ ps.foldl (fun g2 bp => writeCell g2 bp.1 bp.2 c) g,
            row.length = cols.toNat := by
  intro ps
  induction ps with
  | nil => exact fun g hg1 hg2 _ => ⟨hg1, hg2⟩
  | cons p t ih =>
    intro g hg1 hg2 hin
    have hp : inB rows cols p := hin p (List.mem_cons_self p t)
    have hw := writeCell_dims rows cols g p.1 p.2 c hg1 hg2 hp
    exact ih (writeCell g p.1 p.2 c) hw.1 hw.2 (fun x hx => hin x (List.mem_cons_of_mem p hx))

theorem foldWrite_cellAt_notmem (c : Char) :
    ∀ (ps : List Pos) (g : List (List Char)) (q : Pos),
      q ∉ ps → 0 ≤ q.1 → 0 ≤ q.2 →
      cellAt (ps.foldl (fun g2 bp => writeCell g2 bp.1 bp.2 c) g) q = cellAt g q := by
  intro ps
  induction ps with
  | nil => intro g q _ _ _; rfl
  | cons p t ih =>
    intro g q hq hq1 hq2
    have hqp : q ≠ p := fun hcon => hq (hcon ▸ List.mem_cons_self p t)
    have hqt : q ∉ t := fun hcon => hq (List.mem_cons_of_mem p hcon)
    rw [List.foldl_cons, ih (writeCell g p.1 p.2 c) q hqt hq1 hq2,
      cellAt_writeCell_ne g p.1 p.2 c q hqp hq1 hq2]

theorem foldWrite_cellAt_mem (rows cols : Int) (c : Char) :
    ∀ (ps : List Pos) (g : List (List Char)),
      g.length = rows.toNat → (∀ row ∈ g, row.length = cols.toNat) →
      (∀ p ∈ ps, inB rows cols p) →
      ∀ q ∈ ps, cellAt (ps.foldl (fun g2 bp => writeCell g2 bp.1 bp.2 c) g) q = some c := by
  intro ps
  induction ps with
  | nil => intro g _ _ _ q hq; cases hq
  | cons p t ih =>
    intro g hg1 hg2 hin q hq
    have hp : inB rows cols p := hin p (List.mem_cons_self p t)
    have hw := writeCell_dims rows cols g p.1 p.2 c hg1 hg2 hp
    rw [List.foldl_cons]
    by_cases hqt : q ∈ t
    · exact ih (writeCell g p.1 p.2 c) hw.1 hw.2
        (fun x hx => hin x (List.mem_cons_of_mem p hx)) q hqt
    · have hqp : q = p := by
        rcases List.mem_cons.mp hq with h | h
        · exact h
        · exact absurd h hqt
      subst hqp
      rw [foldWrite_cellAt_notmem c t (writeCell g q.1 q.2 c) q hqt
        (by exact hp.1) (by exact hp.2.2.1)]
      exact cellAt_writeCell_self rows cols g q.1 q.2 c hg1 hg2 hp

theorem writeWorm_cellAt (rows cols : Int) (wd : PlacedWorm) (g : List (List Char))
    (hg1 : g.length = rows.toNat) (hg2 : ∀ row ∈ g, row.length = cols.toNat)
    (hhead : inB rows cols wd.headPos)
    (hbody : ∀ p ∈ wd.body, inB rows cols p)
    (hnotin : wd.headPos ∉ wd.body) :
    cellAt (writeWorm g wd) wd.headPos = some wd.worm_id.toUpper
      ∧ (∀ q ∈ wd.body, cellAt (writeWorm g wd) q = some wd.worm_id.toLower)
      ∧ (∀ q : Pos, 0 ≤ q.1 → 0 ≤ q.2 → q ∉ wd.body → q ≠ wd.headPos →
          cellAt (writeWorm g wd) q = cellAt g q)
      ∧ (writeWorm g wd).length = rows.toNat
      ∧ (∀ row ∈ writeWorm g wd, row.length = cols.toNat) := by
  have hwdims := writeCell_dims rows cols g wd.headPos.1 wd.headPos.2 wd.worm_id.toUpper hg1 hg2
    hhead
  have hfdims := foldWrite_dims rows cols wd.worm_id.toLower wd.body _ hwdims.1 hwdims.2 hbody
  refine ⟨?_, ?_, ?_, hfdims.1, hfdims.2⟩
  · unfold writeWorm
    rw [foldWrite_cellAt_notmem wd.worm_id.toLower wd.body _ wd.headPos hnotin
      hhead.1 hhead.2.2.1]
    exact cellAt_writeCell_self rows cols g wd.headPos.1 wd.headPos.2 wd.worm_id.toUpper
      hg1 hg2 hhead
  · intro q hq
    unfold writeWorm
    exact foldWrite_cellAt_mem rows cols wd.worm_id.toLower wd.body _ hwdims.1 hwdims.2 hbody q hq
  · intro q hq1 hq2 hqb hqh
    unfold writeWorm
    rw [foldWrite_cellAt_notmem wd.worm_id.toLower wd.body _ q hqb hq1 hq2,
      cellAt_writeCell_ne g wd.headPos.1 wd.headPos.2 wd.worm_id.toUpper q hqh hq1 hq2]

theorem goodPlaced_append_left (rows cols : Int) (ps : List PlacedWorm) (wd : PlacedWorm)
    (h : GoodPlaced rows cols (ps ++ [wd])) : GoodPlaced rows cols ps := by
  constructor
  · intro a ha
    exact h.1 a (List.mem_append_left _ ha)
  · exact List.Pairwise.sublist (List.sublist_append_left ps [wd]) h.2

theorem renderGrid_cellAt (rows cols : Int) :
    ∀ placed : List PlacedWorm,
      GoodPlaced rows cols placed →
      (renderGrid rows cols placed).length = rows.toNat
        ∧ (∀ row ∈ renderGrid rows cols placed, row.length = cols.toNat)
        ∧ ∀ q : Pos, inB rows cols q →
            cellAt (renderGrid rows cols placed) q = some (cellChar placed q) := by
  intro placed
  induction placed using List.reverseRecOn with
  | nil =>
    intro _
    refine ⟨by simp [renderGrid], ?_, ?_⟩
    · intro row hrow
      unfold renderGrid at hrow
      rw [List.foldl_nil] at hrow
      rw [List.eq_of_mem_replicate hrow]
      simp
    · intro q hq
      obtain ⟨h1, h2, h3, h4⟩ := hq
      unfold renderGrid cellAt cellChar
      simp only [List.foldl_nil, List.find?_nil]
      rw [List.get?_eq_getElem?, List.getElem?_replicate, if_pos (by omega)]
      simp only [Option.bind]
      rw [List.get?_eq_getElem?, List.getElem?_replicate, if_pos (by omega)]
  | append_singleton ps wd ih =>
    intro hgood
    have hps := goodPlaced_append_left rows cols ps wd hgood
    obtain ⟨ihd1, ihd2, ihc⟩ := ih hps
    obtain ⟨hseg, hinb, hbody, hnd⟩ :=
      hgood.1 wd (List.mem_append_right _ (List.mem_singleton_self wd))
    have hdisj : ∀ a ∈ ps, DisjPW a wd := by
      intro a ha
      exact ((List.pairwise_append.mp hgood.2).2.2 a ha wd (List.mem_singleton_self wd)).1
    have hhne : wd.headPos ∉ wd.body := by
      rw [hseg, List.nodup_append] at hnd
      intro hcon
      exact hnd.2.2 hcon (List.mem_singleton_self _)
    have hwdheadseg : wd.headPos ∈ wd.segments := by
      rw [hseg]
      exact List.mem_append_right _ (List.mem_singleton_self _)
    have haseg : ∀ a ∈ ps, a.headPos ∈ a.segments := by
      intro a ha
      rw [(hps.1 a ha).1]
      exact List.mem_append_right _ (List.mem_singleton_self _)
    have habodyseg : ∀ a ∈ ps, ∀ p ∈ a.body, p ∈ a.segments := by
      intro a ha p hp
      rw [(hps.1 a ha).1]
      exact List.mem_append_left _ hp
    have hrg : renderGrid rows cols (ps ++ [wd]) = writeWorm (renderGrid rows cols ps) wd := by
      unfold renderGrid
      rw [List.foldl_append]
      rfl
    have hww := writeWorm_cellAt rows cols wd (renderGrid rows cols ps) ihd1 ihd2 hinb
      (fun p hp => (hbody p hp).1) hhne
    rw [hrg]
    refine ⟨hww.2.2.2.1, hww.2.2.2.2, ?_⟩
    intro q hq
    by_cases hqh : q = wd.headPos
    · subst hqh
      rw [hww.1]
      have hf1 : ps.find? (fun w2 => decide (w2.headPos = wd.headPos)) = none := by
        rw [List.find?_eq_none]
        intro a ha hpa
        have hah : a.headPos = wd.headPos := of_decide_eq_true hpa
        exact hdisj a ha wd.headPos (hah ▸ haseg a ha) hwdheadseg
      unfold cellChar
      rw [List.find?_append, hf1, List.find?_cons_of_pos _ (by simp)]
      rfl
    · by_cases hqb : q ∈ wd.body
      · rw [hww.2.1 q hqb]
        have hqseg : q ∈ wd.segments := by
          rw [hseg]
          exact List.mem_append_left _ hqb
        have hf1 : ps.find? (fun w2 => decide (w2.headPos = q)) = none := by
          rw [List.find?_eq_none]
          intro a ha hpa
          have hah : a.headPos = q := of_decide_eq_true hpa
          exact hdisj a ha q (hah ▸ haseg a ha) hqseg
        have hf1w : (ps ++ [wd]).find? (fun w2 => decide (w2.headPos = q)) = none := by
          rw [List.find?_append, hf1, List.find?_cons_of_neg _ (by
            simp only [decide_eq_true_eq]
            exact fun hcon => hqh hcon.symm), List.find?_nil]
          rfl
        have hf2 : ps.find? (fun w2 => decide (q ∈ w2.body)) = none := by
          rw [List.find?_eq_none]
          intro a ha hpa
          have hab : q ∈ a.body := of_decide_eq_true hpa
          exact hdisj a ha q (habodyseg a ha q hab) hqseg
        unfold cellChar
        rw [hf1w]
        dsimp only
        rw [List.find?_append, hf2, List.find?_cons_of_pos _ (by simpa using hqb)]
        rfl
      · rw [hww.2.2.1 q hq.1 hq.2.2.1 hqb hqh, ihc q hq]
        have hf1w : (ps ++ [wd]).find? (fun w2 => decide (w2.headPos = q))
            = ps.find? (fun w2 => decide (w2.headPos = q)) := by
          rw [List.find?_append, List.find?_cons_of_neg _ (by
            simp only [decide_eq_true_eq]
            exact fun hcon => hqh hcon.symm), List.find?_nil, Option.or_none]
        have hf2w : (ps ++ [wd]).find? (fun w2 => decide (q ∈ w2.body))
            = ps.find? (fun w2 => decide (q ∈ w2.body)) := by
          rw [List.find?_append, List.find?_cons_of_neg _ (by simpa using hqb),
            List.find?_nil, Option.or_none]
        unfold cellChar
        rw [hf1w, hf2w]

/-! ## Worm-id character facts -/

theorem char_id_facts : ∀ k : Nat, k < 26 →
    (Char.ofNat (65 + k)).isUpper = true
      ∧ (Char.ofNat (65 + k)).toUpper = Char.ofNat (65 + k)
      ∧ ((Char.ofNat (65 + k)).toLower.isUpper = false)
      ∧ (Char.ofNat (65 + k)).toLower.toUpper = Char.ofNat (65 + k)
      ∧ (Char.ofNat (65 + k)) ≠ '.'
      ∧ (Char.ofNat (65 + k)) ≠ ' '
      ∧ (Char.ofNat (65 + k)).toLower ≠ '.'
      ∧ (Char.ofNat (65 + k)).toLower ≠ ' ' := by decide

theorem char_id_inj : ∀ k : Nat, k < 26 → ∀ j : Nat, j < 26 →
    ((Char.ofNat (65 + k) = Char.ofNat (65 + j)) ↔ k = j) := by decide

theorem char_id_lt : ∀ k : Nat, k < 26 → ∀ j : Nat, j < 26 →
    ((Char.ofNat (65 + k) < Char.ofNat (65 + j)) ↔ k < j) := by decide

theorem idsUpTo_nodup (n : Nat) (hn : n ≤ 26) : (idsUpTo n).Nodup := by
  unfold idsUpTo
  apply List.Nodup.map_on
  · intro x hx y hy hxy
    rw [List.mem_range] at hx hy
    exact (char_id_inj x (by omega) y (by omega)).mp hxy
  · exact List.nodup_range n

/-! ## Scanning the generated grid -/

theorem strCellAt_map_mk (g : List (List Char)) (rn cn : Nat) :
    strCellAt (g.map String.mk) rn cn = cellAt g ((rn : Int), (cn : Int)) := by
  unfold strCellAt cellAt
  dsimp only
  simp only [Int.toNat_ofNat, List.get?_eq_getElem?, List.getElem?_map]
  cases g[rn]? <;> rfl

theorem cellAt_isSome_inB (rows cols : Int) (g : List (List Char))
    (hg1 : g.length = rows.toNat) (hg2 : ∀ row ∈ g, row.length = cols.toNat)
    (rn cn : Nat) (ch : Char) (h : cellAt g ((rn : Int), (cn : Int)) = some ch) :
    inB rows cols ((rn : Int), (cn : Int)) := by
  unfold cellAt at h
  rw [List.get?_eq_getElem?] at h
  simp only [Int.toNat_ofNat] at h
  cases hg : g[rn]? with
  | none => rw [hg] at h; cases h
  | some row =>
    rw [hg] at h
    simp only [Option.bind] at h
    obtain ⟨hrn, hrow⟩ := List.getElem?_eq_some.mp hg
    have hmem : row ∈ g := by rw [← hrow]; exact List.getElem_mem hrn
    rw [List.get?_eq_getElem?] at h
    have hcn : cn < row.length := (List.getElem?_eq_some.mp h).1
    have h1 : rn < rows.toNat := by omega
    have h2 : cn < cols.toNat := by rw [hg2 row hmem] at hcn; exact hcn
    unfold inB
    dsimp only
    omega

theorem segdisj_of_good (rows cols : Int) (placed : List PlacedWorm)
    (hgood : GoodPlaced rows cols placed) :
    ∀ a ∈ placed, ∀ b ∈ placed, a ≠ b → ∀ p ∈ a.segments, p ∉ b.segments := by
  intro a ha b hb hne p hpa hpb
  obtain ⟨i, hi, hia⟩ := List.mem_iff_getElem.mp ha
  obtain ⟨j, hj, hjb⟩ := List.mem_iff_getElem.mp hb
  have hpw := List.pairwise_iff_getElem.mp hgood.2
  rcases Nat.lt_trichotomy i j with hij | hij | hij
  · have hd := (hpw i j hi hj hij).1
    rw [← hia] at hpa
    rw [← hjb] at hpb
    exact hd p hpa hpb
  · subst hij
    exact hne (hia.symm.trans hjb)
  · have hd := (hpw j i hj hi hij).1
    rw [← hia] at hpa
    rw [← hjb] at hpb
    exact hd p hpb hpa

theorem generated_scan_marks (rows cols : Int) (placed : List PlacedWorm)
    (hgood : GoodPlaced rows cols placed)
    (hids : placed.map (fun wd => wd.worm_id) = idsUpTo placed.length)
    (hn : placed.length ≤ 26) :
    (∀ wd ∈ placed,
        headCells ((renderGrid rows cols placed).map String.mk) wd.worm_id = [wd.headPos]
          ∧ ∀ q : Pos,
              (q ∈ bodyCells ((renderGrid rows cols placed).map String.mk) wd.worm_id
                ↔ q ∈ wd.body))
      ∧ (∀ wid : Char, (∀ wd ∈ placed, wd.worm_id ≠ wid) →
          headCells ((renderGrid rows cols placed).map String.mk) wid = []) := by
  obtain ⟨hd1, hd2, hcell⟩ := renderGrid_cellAt rows cols placed hgood
  have hidchar : ∀ wd ∈ placed, ∃ k, k < 26 ∧ wd.worm_id = Char.ofNat (65 + k) := by
    intro wd hwd
    have hm : wd.worm_id ∈ placed.map (fun wd => wd.worm_id) :=
      List.mem_map_of_mem _ hwd
    rw [hids] at hm
    unfold idsUpTo at hm
    rw [List.mem_map] at hm
    obtain ⟨k, hk, hck⟩ := hm
    rw [List.mem_range] at hk
    exact ⟨k, by omega, hck.symm⟩
  have hidsnd : (placed.map (fun wd => wd.worm_id)).Nodup := by
    rw [hids]
    exact idsUpTo_nodup _ hn
  have hinj := List.inj_on_of_nodup_map hidsnd
  have hsegdisj := segdisj_of_good rows cols placed hgood
  have hsegof : ∀ a ∈ placed, a.segments = a.body ++ [a.headPos] :=
    fun a ha => (hgood.1 a ha).1
  have hheadseg : ∀ a ∈ placed, a.headPos ∈ a.segments := by
    intro a ha
    rw [hsegof a ha]
    exact List.mem_append_right _ (List.mem_singleton_self _)
  have hbodyseg : ∀ a ∈ placed, ∀ p ∈ a.body, p ∈ a.segments := by
    intro a ha p hp
    rw [hsegof a ha]
    exact List.mem_append_left _ hp
  have hheadnb : ∀ a ∈ placed, a.headPos ∉ a.body := by
    intro a ha hcon
    have hnd := (hgood.1 a ha).2.2.2
    rw [hsegof a ha, List.nodup_append] at hnd
    exact hnd.2.2 hcon (List.mem_singleton_self _)
  have hscanfwd : ∀ (q : Pos) (ch : Char),
      (q, ch) ∈ scanCells ((renderGrid rows cols placed).map String.mk) →
      inB rows cols q ∧ ch = cellChar placed q := by
    intro q ch hm
    rw [mem_scanCells] at hm
    obtain ⟨rn, cn, rfl, hstr⟩ := hm
    rw [strCellAt_map_mk] at hstr
    have hin := cellAt_isSome_inB rows cols _ hd1 hd2 rn cn ch hstr
    refine ⟨hin, ?_⟩
    have := hcell _ hin
    rw [this] at hstr
    exact (Option.some.inj hstr).symm
  have hscanbwd : ∀ q : Pos, inB rows cols q →
      (q, cellChar placed q) ∈ scanCells ((renderGrid rows cols placed).map String.mk) := by
    intro q hin
    rw [mem_scanCells]
    refine ⟨q.1.toNat, q.2.toNat, ?_, ?_⟩
    · rw [Prod.ext_iff]
      constructor
      · exact (Int.toNat_of_nonneg hin.1).symm
      · exact (Int.toNat_of_nonneg hin.2.2.1).symm
    · rw [strCellAt_map_mk]
      have hq : ((q.1.toNat : Int), (q.2.toNat : Int)) = q := by
        rw [Prod.ext_iff]
        exact ⟨Int.toNat_of_nonneg hin.1, Int.toNat_of_nonneg hin.2.2.1⟩
      rw [hq]
      exact hcell q hin
  have hccHead : ∀ wd ∈ placed, cellChar placed wd.headPos = wd.worm_id.toUpper := by
    intro wd hwd
    unfold cellChar
    have hf : placed.find? (fun w2 => decide (w2.headPos = wd.headPos)) = some wd := by
      apply find?_eq_some_of_unique hwd (by simp)
      intro x hx hpx
      have hxh : x.headPos = wd.headPos := of_decide_eq_true hpx
      by_contra hne
      exact hsegdisj x hx wd hwd hne wd.headPos (hxh ▸ hheadseg x hx) (hheadseg wd hwd)
    rw [hf]
  have hccBody : ∀ wd ∈ placed, ∀ q ∈ wd.body, cellChar placed q = wd.worm_id.toLower := by
    intro wd hwd q hq
    unfold cellChar
    have hqseg : q ∈ wd.segments := hbodyseg wd hwd q hq
    have hf1 : placed.find? (fun w2 => decide (w2.headPos = q)) = none := by
      rw [List.find?_eq_none]
      intro x hx hpx
      have hxh : x.headPos = q := of_decide_eq_true hpx
      by_cases hxe : x = wd
      · subst hxe
        exact hheadnb x hx (by rw [hxh]; exact hq)
      · exact hsegdisj x hx wd hwd hxe q (hxh ▸ hheadseg x hx) hqseg
    have hf2 : placed.find? (fun w2 => decide (q ∈ w2.body)) = some wd := by
      apply find?_eq_some_of_unique hwd (by simpa using hq)
      intro x hx hpx
      have hxb : q ∈ x.body := of_decide_eq_true hpx
      by_contra hne
      exact hsegdisj x hx wd hwd hne q (hbodyseg x hx q hxb) hqseg
    rw [hf1]
    dsimp only
    rw [hf2]
  have hheadfwd : ∀ (wid : Char) (q : Pos) (ch : Char),
      cellChar placed q = ch → headMark wid (q, ch) = true →
      ∃ wd ∈ placed, wd.worm_id = wid ∧ q = wd.headPos := by
    intro wid q ch hcc hmark
    simp only [headMark, blankChar, Bool.decide_and, Bool.and_eq_true, decide_eq_true_eq] at hmark
    unfold cellChar at hcc
    cases hf1 : placed.find? (fun w2 => decide (w2.headPos = q)) with
    | some a =>
      rw [hf1] at hcc
      dsimp only at hcc
      have hamem := List.mem_of_find?_eq_some hf1
      obtain ⟨k, hk, hak⟩ := hidchar a hamem
      have hupper : a.worm_id.toUpper = a.worm_id := by
        rw [hak]
        exact (char_id_facts k hk).2.1
      refine ⟨a, hamem, ?_, ?_⟩
      · rw [← hmark.2.1, ← hcc, hupper, hupper]
      · have hpa := List.find?_some hf1
        exact (@of_decide_eq_true (a.headPos = q) _ hpa).symm
    | none =>
      rw [hf1] at hcc
      dsimp only at hcc
      cases hf2 : placed.find? (fun w2 => decide (q ∈ w2.body)) with
      | some a =>
        rw [hf2] at hcc
        dsimp only at hcc
        have hamem := List.mem_of_find?_eq_some hf2
        obtain ⟨k, hk, hak⟩ := hidchar a hamem
        exfalso
        have hup := hmark.2.2
        rw [← hcc, hak, (char_id_facts k hk).2.2.1] at hup
        cases hup
      | none =>
        rw [hf2] at hcc
        dsimp only at hcc
        exfalso
        have hbl := hmark.1
        rw [← hcc] at hbl
        simp at hbl
  have hbodyfwd : ∀ (wid : Char) (q : Pos) (ch : Char),
      cellChar placed q = ch → bodyMark wid (q, ch) = true →
      ∃ wd ∈ placed, wd.worm_id = wid ∧ q ∈ wd.body := by
    intro wid q ch hcc hmark
    simp only [bodyMark, blankChar, Bool.decide_and, Bool.and_eq_true, decide_eq_true_eq] at hmark
    unfold cellChar at hcc
    cases hf1 : placed.find? (fun w2 => decide (w2.headPos = q)) with
    | some a =>
      rw [hf1] at hcc
      dsimp only at hcc
      have hamem := List.mem_of_find?_eq_some hf1
      obtain ⟨k, hk, hak⟩ := hidchar a hamem
      exfalso
      have hup := hmark.2.2
      rw [← hcc, hak, (char_id_facts k hk).2.1, (char_id_facts k hk).1] at hup
      simp at hup
    | none =>
      rw [hf1] at hcc
      dsimp only at hcc
      cases hf2 : placed.find? (fun w2 => decide (q ∈ w2.body)) with
      | some a =>
        rw [hf2] at hcc
        dsimp only at hcc
        have hamem := List.mem_of_find?_eq_some hf2
        obtain ⟨k, hk, hak⟩ := hidchar a hamem
        have hpa := List.find?_some hf2
        refine ⟨a, hamem, ?_, @of_decide_eq_true (q ∈ a.body) _ hpa⟩
        have hl : a.worm_id.toLower.toUpper = a.worm_id := by
          rw [hak]
          exact (char_id_facts k hk).2.2.2.1
        rw [← hmark.2.1, ← hcc, hl]
      | none =>
        rw [hf2] at hcc
        dsimp only at hcc
        exfalso
        have hbl := hmark.1
        rw [← hcc] at hbl
        simp at hbl
  have hheadmark : ∀ wd ∈ placed,
      headMark wd.worm_id (wd.headPos, wd.worm_id.toUpper) = true := by
    intro wd hwd
    obtain ⟨k, hk, hak⟩ := hidchar wd hwd
    obtain ⟨f1, f2, f3, f4, f5, f6, f7, f8⟩ := char_id_facts k hk
    rw [hak]
    simp [headMark, blankChar, f1, f2, f5, f6]
  have hbodymark : ∀ wd ∈ placed, ∀ q : Pos,
      bodyMark wd.worm_id (q, wd.worm_id.toLower) = true := by
    intro wd hwd q
    obtain ⟨k, hk, hak⟩ := hidchar wd hwd
    obtain ⟨f1, f2, f3, f4, f5, f6, f7, f8⟩ := char_id_facts k hk
    rw [hak]
    simp [bodyMark, blankChar, f3, f4, f7, f8]
  constructor
  · intro wd hwd
    obtain ⟨hsg, hinb, hbodyf, hnd⟩ := hgood.1 wd hwd
    constructor
    · apply nodup_eq_singleton
      · exact headCellsL_nodup _ _ (scanCells_pos_nodup _)
      · unfold headCells
        rw [mem_headCellsL]
        refine ⟨wd.worm_id.toUpper, ?_, hheadmark wd hwd⟩
        have hb := hscanbwd wd.headPos hinb
        rw [hccHead wd hwd] at hb
        exact hb
      · intro x hx
        unfold headCells at hx
        rw [mem_headCellsL] at hx
        obtain ⟨ch, hmem, hmark⟩ := hx
        obtain ⟨hin2, hch⟩ := hscanfwd x ch hmem
        obtain ⟨a, hamem, haid, hax⟩ := hheadfwd wd.worm_id x ch hch.symm hmark
        rw [hax, hinj hamem hwd haid]
    · intro q
      constructor
      · intro hq
        unfold bodyCells at hq
        rw [mem_bodyCellsL] at hq
        obtain ⟨ch, hmem, hmark⟩ := hq
        obtain ⟨hin2, hch⟩ := hscanfwd q ch hmem
        obtain ⟨a, hamem, haid, haq⟩ := hbodyfwd wd.worm_id q ch hch.symm hmark
        rw [← hinj hamem hwd haid]
        exact haq
      · intro hq
        unfold bodyCells
        rw [mem_bodyCellsL]
        refine ⟨wd.worm_id.toLower, ?_, hbodymark wd hwd q⟩
        have hb := hscanbwd q (hbodyf q hq).1
        rw [hccBody wd hwd q hq] at hb
        exact hb
  · intro wid hwid
    unfold headCells
    rw [List.eq_nil_iff_forall_not_mem]
    intro x hx
    rw [mem_headCellsL] at hx
    obtain ⟨ch, hmem, hmark⟩ := hx
    obtain ⟨hin2, hch⟩ := hscanfwd x ch hmem
    obtain ⟨a, hamem, haid, -⟩ := hheadfwd wid x ch hch.symm hmark
    exact hwid a hamem haid

/-! ## Direction round-trips between generator and parser -/

theorem parseDir_dirStr (d : Dir) : parseDir (dirStr d) = .ok d := by
  cases d <;> rfl

theorem walkValid_not_leViol (d : Dir) (hr hc : Int) (p : Pos)
    (h : walkValid d hr hc p = true) : leViol (dirStr d) (hr, hc) p = false := by
  cases d <;> simp [walkValid, leViol, dirStr] at h ⊢ <;> omega

theorem walkValid_sortKeyLe (d : Dir) (hr hc : Int) (p : Pos)
    (h : walkValid d hr hc p = true) : sortKeyLe d p (hr, hc) = true := by
  cases d <;> simp [walkValid, sortKeyLe] at h ⊢ <;> omega

theorem lookup_of_cmGet_head (cm : CellMap) (wid : Char) (hp : Pos)
    (h : (cmGet cm wid).1 = some hp) : cm.lookup wid = some (cmGet cm wid) := by
  unfold cmGet at h ⊢
  cases hl : cm.lookup wid with
  | none => rw [hl] at h; simp at h
  | some info => simp

/-! ## load_level on a generated level -/

theorem load_level_generated (rows cols : Int) (placed : List PlacedWorm)
    (hgood : GoodPlaced rows cols placed)
    (hids : placed.map (fun wd => wd.worm_id) = idsUpTo placed.length)
    (hn : placed.length ≤ 26) :
    ∃ worms : List Worm,
      load_level (mkLevelData rows cols placed)
          = .ok (rows, cols, (mkLevelData rows cols placed).name.getD "Unnamed Level", worms)
        ∧ List.Forall₂ (fun (wd : PlacedWorm) (w : Worm) =>
            w.worm_id = wd.worm_id ∧ w.direction = wd.direction ∧ w.head = wd.headPos
              ∧ ∀ p : Pos, p ∈ w.segments ↔ p ∈ wd.segments) placed worms := by
  obtain ⟨hper, hother⟩ := generated_scan_marks rows cols placed hgood hids hn
  have hscanok : ∃ cm, foldlExcept scanStep ([] : CellMap)
      (scanCells ((renderGrid rows cols placed).map String.mk)) = .ok cm := by
    apply scanFold_ok
    intro wid
    constructor
    · intro _
      by_cases hex : ∃ wd ∈ placed, wd.worm_id = wid
      · obtain ⟨wd, hwd, rfl⟩ := hex
        have hh := (hper wd hwd).1
        unfold headCells at hh
        rw [hh]
        simp
      · push_neg at hex
        have hh := hother wid hex
        unfold headCells at hh
        rw [hh]
        simp
    · intro h hsome
      simp [cmGet] at hsome
  obtain ⟨cm, hcm⟩ := hscanok
  have hheadeq : ∀ wd ∈ placed, (cmGet cm wd.worm_id).1 = some wd.headPos := by
    intro wd hwd
    have hf := scanFold_facts wd.worm_id
      (scanCells ((renderGrid rows cols placed).map String.mk)) [] cm hcm
    have hsing := (hper wd hwd).1
    unfold headCells at hsing
    rcases hf.2.2 rfl with ⟨-, hempty⟩ | ⟨h0, hsome, hone⟩
    · rw [hsing] at hempty
      cases hempty
    · rw [hsing] at hone
      simp only [List.cons.injEq, and_true] at hone
      rw [hsome, hone]
  have hbodyeq : ∀ wd ∈ placed, (cmGet cm wd.worm_id).2
      = bodyCellsL (scanCells ((renderGrid rows cols placed).map String.mk)) wd.worm_id := by
    intro wd hwd
    have hf := scanFold_facts wd.worm_id
      (scanCells ((renderGrid rows cols placed).map String.mk)) [] cm hcm
    have := hf.1
    simpa [cmGet] using this
  have hbuild : ∀ wd ∈ placed,
      buildWorm cm (wd.worm_id, ⟨some wd.color, dirStr wd.direction⟩)
        = .ok ⟨wd.worm_id,
            insSort (sortKeyLe wd.direction) ((cmGet cm wd.worm_id).2 ++ [wd.headPos]),
            wd.direction, wd.color⟩ := by
    intro wd hwd
    have hlook := lookup_of_cmGet_head cm wd.worm_id wd.headPos (hheadeq wd hwd)
    have hfind : (cmGet cm wd.worm_id).2.find?
        (leViol (dirStr wd.direction) wd.headPos) = none := by
      rw [List.find?_eq_none]
      intro p hp
      rw [hbodyeq wd hwd] at hp
      have hpb : p ∈ wd.body := by
        have := (hper wd hwd).2 p
        unfold bodyCells at this
        exact this.mp hp
      have hwv := ((hgood.1 wd hwd).2.2.1 p hpb).2
      have := walkValid_not_leViol wd.direction wd.headPos.1 wd.headPos.2 p hwv
      rw [this]
      simp
    exact buildWorm_ok cm (wd.worm_id, ⟨some wd.color, dirStr wd.direction⟩)
      (cmGet cm wd.worm_id) wd.headPos wd.direction hlook (hheadeq wd hwd) hfind
      (parseDir_dirStr wd.direction)
  have hallok : ∀ wm ∈ placed.map
      (fun wd => (wd.worm_id, (⟨some wd.color, dirStr wd.direction⟩ : WormMeta))),
      ∃ b, buildWorm cm wm = .ok b := by
    intro wm hwm
    rw [List.mem_map] at hwm
    obtain ⟨wd, hwd, rfl⟩ := hwm
    exact ⟨_, hbuild wd hwd⟩
  obtain ⟨worms, hmap, hrel⟩ := mapMExcept_ok_forall (buildWorm cm)
    (fun wm w => buildWorm cm wm = .ok w) (fun a b h => h) _ hallok
  refine ⟨worms, ?_, ?_⟩
  · unfold load_level
    simp only [mkLevelData]
    rw [hcm]
    dsimp only
    rw [hmap]
  · rw [List.forall₂_iff_get] at hrel ⊢
    obtain ⟨hlen, hptw⟩ := hrel
    rw [List.length_map] at hlen
    refine ⟨hlen, ?_⟩
    intro i h1 h2
    have hwd : placed.get ⟨i, h1⟩ ∈ placed := List.get_mem placed i h1
    have hbw := hptw i (by rw [List.length_map]; exact h1) h2
    have hget : (placed.map
        (fun wd => (wd.worm_id, (⟨some wd.color, dirStr wd.direction⟩ : WormMeta)))).get
          ⟨i, by rw [List.length_map]; exact h1⟩
        = ((placed.get ⟨i, h1⟩).worm_id,
            (⟨some (placed.get ⟨i, h1⟩).color, dirStr (placed.get ⟨i, h1⟩).direction⟩
              : WormMeta)) := by
      simp
    rw [hget, hbuild (placed.get ⟨i, h1⟩) hwd] at hbw
    have hw : worms.get ⟨i, h2⟩
        = ⟨(placed.get ⟨i, h1⟩).worm_id,
            insSort (sortKeyLe (placed.get ⟨i, h1⟩).direction)
              ((cmGet cm (placed.get ⟨i, h1⟩).worm_id).2 ++ [(placed.get ⟨i, h1⟩).headPos]),
            (placed.get ⟨i, h1⟩).direction, (placed.get ⟨i, h1⟩).color⟩ := by
      injection hbw with h3
      exact h3.symm
    rw [hw]
    refine ⟨rfl, rfl, ?_, ?_⟩
    · unfold Worm.head
      dsimp only
      apply insSort_concat_getLastD
      intro y hy
      rw [hbodyeq _ hwd] at hy
      have hyb : y ∈ (placed.get ⟨i, h1⟩).body := by
        have := (hper _ hwd).2 y
        unfold bodyCells at this
        exact this.mp hy
      have hwv := ((hgood.1 _ hwd).2.2.1 y hyb).2
      exact walkValid_sortKeyLe _ _ _ y hwv
    · intro p
      dsimp only
      rw [mem_insSort, List.mem_append, List.mem_singleton, hbodyeq _ hwd,
        (hgood.1 _ hwd).1, List.mem_append, List.mem_singleton]
      constructor
      · rintro (hp | hp)
        · left
          have := (hper _ hwd).2 p
          unfold bodyCells at this
          exact this.mp hp
        · right
          exact hp
      · rintro (hp | hp)
        · left
          have := (hper _ hwd).2 p
          unfold bodyCells at this
          exact this.mpr hp
        · right
          exact hp

/-! ## Solver success on corridor-free layouts -/

theorem segFold_occ (w : Worm) :
    ∀ (segs : List Pos) (occ : Pos → Option Char) (p : Pos) (x : Char),
      (segs.foldl (fun o seg => fun q => if q = seg then some w.worm_id else o q) occ) p
          = some x →
      (x = w.worm_id ∧ p ∈ segs) ∨ occ p = some x := by
  intro segs
  induction segs with
  | nil => intro occ p x h; right; exact h
  | cons s t ih =>
    intro occ p x h
    rw [List.foldl_cons] at h
    rcases ih _ p x h with ⟨hx, hp⟩ | hocc
    · exact Or.inl ⟨hx, List.mem_cons_of_mem _ hp⟩
    · by_cases hps : p = s
      · rw [if_pos hps] at hocc
        injection hocc with hx
        exact Or.inl ⟨hx.symm, by rw [hps]; exact List.mem_cons_self s t⟩
      · rw [if_neg hps] at hocc
        exact Or.inr hocc

theorem build_occupancy_sound (worms : List Worm) (p : Pos) (x : Char)
    (h : build_occupancy worms p = some x) :
    ∃ w ∈ worms, w.worm_id = x ∧ p ∈ w.segments := by
  have haux : ∀ (ws : List Worm) (occ0 : Pos → Option Char),
      (ws.foldl (fun occ w =>
        w.segments.foldl (fun o seg => fun q => if q = seg then some w.worm_id else o q) occ)
        occ0) p = some x →
      (∃ w ∈ ws, w.worm_id = x ∧ p ∈ w.segments) ∨ occ0 p = some x := by
    intro ws
    induction ws with
    | nil => intro occ0 h0; right; exact h0
    | cons w t ih =>
      intro occ0 h0
      rw [List.foldl_cons] at h0
      rcases ih _ h0 with ⟨w2, hw2, hrest⟩ | hocc
      · exact Or.inl ⟨w2, List.mem_cons_of_mem _ hw2, hrest⟩
      · rcases segFold_occ w w.segments occ0 p x hocc with ⟨hx, hp⟩ | h2
        · exact Or.inl ⟨w, List.mem_cons_self w t, hx.symm, hp⟩
        · exact Or.inr h2
  unfold build_occupancy at h
  rcases haux worms (fun _ => none) h with hex | hnone
  · exact hex
  · cases hnone

theorem exists_max_id : ∀ (worms : List Worm), worms ≠ [] →
    ∃ m ∈ worms, ∀ w ∈ worms, w.worm_id ≤ m.worm_id := by
  intro worms
  induction worms with
  | nil => intro h; exact absurd rfl h
  | cons a t ih =>
    intro _
    by_cases ht : t = []
    · subst ht
      refine ⟨a, List.mem_cons_self a [], ?_⟩
      intro w hw
      rcases List.mem_cons.mp hw with rfl | h2
      · exact le_refl _
      · cases h2
    · obtain ⟨m, hm, hmax⟩ := ih ht
      by_cases hcmp : a.worm_id ≤ m.worm_id
      · refine ⟨m, List.mem_cons_of_mem a hm, ?_⟩
        intro w hw
        rcases List.mem_cons.mp hw with rfl | h2
        · exact hcmp
        · exact hmax w h2
      · push_neg at hcmp
        refine ⟨a, List.mem_cons_self a t, ?_⟩
        intro w hw
        rcases List.mem_cons.mp hw with rfl | h2
        · exact le_refl _
        · exact le_trans (hmax w h2) (le_of_lt hcmp)

theorem graph_free_perm (worms : List Worm) (rows cols : Int) :
    (((build_dependency_graph worms rows cols).filter (fun e => e.2 = [])).map Prod.fst)
      = (worms.filter (fun w =>
          decide (first_blocker w (build_occupancy worms) rows cols = none))).map
            Worm.worm_id := by
  simp only [build_dependency_graph]
  have key : ∀ (l : List Worm) (occ : Pos → Option Char),
      (((l.map (fun w => (w.worm_id, match first_blocker w occ rows cols with
          | some b => [b]
          | none => ([] : List Char)))).filter (fun e => e.2 = [])).map Prod.fst)
        = (l.filter (fun w => decide (first_blocker w occ rows cols = none))).map
            Worm.worm_id := by
    intro l occ
    induction l with
    | nil => rfl
    | cons a t ihl =>
      rw [List.map_cons, List.filter_cons, List.filter_cons]
      cases hfb : first_blocker a occ rows cols with
      | none =>
        simp only [hfb]
        rw [if_pos (by simp), if_pos (by simp), List.map_cons, List.map_cons, ihl]
      | some b =>
        simp only [hfb]
        rw [if_neg (by simp), if_neg (by simp)]
        exact ihl
  exact key worms (build_occupancy worms)

theorem mem_graph_free_iff (worms : List Worm) (rows cols : Int)
    (hnd : (worms.map Worm.worm_id).Nodup) (w : Worm) (hw : w ∈ worms) :
    (w.worm_id ∈ sortChars (((build_dependency_graph worms rows cols).filter
        (fun e => e.2 = [])).map Prod.fst))
      ↔ first_blocker w (build_occupancy worms) rows cols = none := by
  unfold sortChars
  rw [mem_insSort, graph_free_perm, List.mem_map]
  constructor
  · rintro ⟨w2, hw2f, hid⟩
    have hw2 := List.mem_of_mem_filter hw2f
    have hww : w2 = w := List.inj_on_of_nodup_map hnd hw2 hw hid
    subst hww
    exact of_decide_eq_true (List.mem_filter.mp hw2f).2
  · intro hfb
    exact ⟨w, List.mem_filter.mpr ⟨hw, by simp [hfb]⟩, rfl⟩

theorem solveLoop_success (rows cols : Int) :
    ∀ (fuel : Nat) (worms : List Worm) (round_num : Nat) (report : List String)
      (order : List Char) (rounds : List (List Char)),
      worms.length < fuel →
      (worms.map Worm.worm_id).Nodup →
      CorrFree rows cols worms →
      (solveLoop fuel worms rows cols round_num report order rounds).1 = true
        ∧ ∃ tail : List Char,
            (solveLoop fuel worms rows cols round_num report order rounds).2.2.1
                = order ++ tail
              ∧ tail.Perm (worms.map Worm.worm_id) := by
  intro fuel
  induction fuel with
  | zero =>
    intro worms round_num report order rounds hlt
    exact absurd hlt (by omega)
  | succ fuel ih =>
    intro worms round_num report order rounds hlt hnd hcf
    cases worms with
    | nil =>
      exact ⟨by simp [solveLoop], [], by simp [solveLoop], by simp⟩
    | cons w0 rest =>
      obtain ⟨m, hm, hmax⟩ := exists_max_id (w0 :: rest) (by simp)
      have hmfb : first_blocker m (build_occupancy (w0 :: rest)) rows cols = none := by
        unfold first_blocker
        rw [firstBlockerAux_eq m.worm_id (build_occupancy (w0 :: rest)) m.direction rows cols
          (corrFuel rows cols) m.head.1 m.head.2, listFirstBlocker_eq_none_iff]
        intro p hp
        cases hocc : build_occupancy (w0 :: rest) p with
        | none => exact Or.inl rfl
        | some o =>
          right
          by_contra hne
          have hone : o ≠ m.worm_id := fun hc => hne (by rw [hc])
          obtain ⟨w2, hw2, hw2id, hw2p⟩ := build_occupancy_sound (w0 :: rest) p o hocc
          have hlt2 : w2.worm_id < m.worm_id := by
            refine lt_of_le_of_ne (hmax w2 hw2) ?_
            rw [hw2id]
            exact hone
          exact hcf m hm w2 hw2 hlt2 p hp hw2p
      simp only [solveLoop]
      set graphE := build_dependency_graph (w0 :: rest) rows cols with hgE
      set freeE := sortChars ((graphE.filter (fun e => e.2 = [])).map Prod.fst) with hfE
      have hmfree : m.worm_id ∈ freeE := by
        rw [hfE, hgE]
        exact (mem_graph_free_iff (w0 :: rest) rows cols hnd m hm).mpr hmfb
      have hfne : freeE ≠ [] := List.ne_nil_of_mem hmfree
      rw [if_neg hfne]
      have hnd2 : (((w0 :: rest).filter
          (fun w => ¬ w.worm_id ∈ freeE)).map Worm.worm_id).Nodup :=
        List.Nodup.sublist (List.Sublist.map _ (List.filter_sublist _)) hnd
      have hcf2 : CorrFree rows cols ((w0 :: rest).filter (fun w => ¬ w.worm_id ∈ freeE)) := by
        intro w hw w2 hw2 hl p hp
        exact hcf w (List.mem_of_mem_filter hw) w2 (List.mem_of_mem_filter hw2) hl p hp
      have hflt : ((w0 :: rest).filter (fun w => ¬ w.worm_id ∈ freeE)).length < fuel := by
        have h1 : ((w0 :: rest).filter (fun w => ¬ w.worm_id ∈ freeE)).length
            < (w0 :: rest).length :=
          List.length_filter_lt_length_iff_exists.mpr ⟨m, hm, by simp [hmfree]⟩
        have h2 := hlt
        simp only [List.length_cons] at h1 h2 ⊢
        omega
      obtain ⟨g1, tail', hord, hperm⟩ := ih ((w0 :: rest).filter (fun w => ¬ w.worm_id ∈ freeE))
        (round_num + 1)
        (report ++ [extractLine (round_num + 1) freeE]
          ++ (sortChars ((graphE.filter (fun e => e.2 ≠ [])).map Prod.fst)).map
            (fun wid => stillBlockedLine wid ((graphE.lookup wid).getD [])))
        (order ++ freeE) (rounds ++ [freeE]) hflt hnd2 hcf2
      have hwcong : (w0 :: rest).filter (fun w => ¬ w.worm_id ∈ freeE)
          = (w0 :: rest).filter (fun w =>
              !(decide (first_blocker w (build_occupancy (w0 :: rest)) rows cols = none))) := by
        apply List.filter_congr
        intro w hw
        have hiff := mem_graph_free_iff (w0 :: rest) rows cols hnd w hw
        by_cases hfb : first_blocker w (build_occupancy (w0 :: rest)) rows cols = none
        · have hmemf : w.worm_id ∈ freeE := by
            rw [hfE, hgE]
            exact hiff.mpr hfb
          simp [hmemf, hfb]
        · have hnmem : ¬ w.worm_id ∈ freeE := by
            rw [hfE, hgE]
            exact fun hc => hfb (hiff.mp hc)
          simp [hnmem, hfb]
      have hfreeperm : freeE.Perm (((w0 :: rest).filter (fun w =>
          decide (first_blocker w (build_occupancy (w0 :: rest)) rows cols = none))).map
            Worm.worm_id) := by
        rw [hfE, hgE, graph_free_perm]
        unfold sortChars
        exact insSort_perm _ _
      have hsplit : ((((w0 :: rest).filter (fun w =>
            decide (first_blocker w (build_occupancy (w0 :: rest)) rows cols = none))).map
              Worm.worm_id)
          ++ (((w0 :: rest).filter (fun w =>
            !(decide (first_blocker w (build_occupancy (w0 :: rest)) rows cols = none)))).map
              Worm.worm_id)).Perm ((w0 :: rest).map Worm.worm_id) := by
        rw [← List.map_append]
        exact (List.filter_append_perm _ _).map Worm.worm_id
      rw [hwcong] at hperm
      refine ⟨g1, freeE ++ tail', ?_, ?_⟩
      · rw [hord, List.append_assoc]
      · exact (hfreeperm.append hperm).trans hsplit

theorem parsed_ids_eq (placed : List PlacedWorm) (worms : List Worm)
    (hrel : List.Forall₂ (fun (wd : PlacedWorm) (w : Worm) =>
        w.worm_id = wd.worm_id ∧ w.direction = wd.direction ∧ w.head = wd.headPos
          ∧ ∀ p : Pos, p ∈ w.segments ↔ p ∈ wd.segments) placed worms) :
    worms.map Worm.worm_id = placed.map (fun wd => wd.worm_id) := by
  induction hrel with
  | nil => rfl
  | cons h htl ih => simp [ih, h.1]

theorem idsUpTo_getElem (n k : Nat) (hk : k < n) :
    (idsUpTo n)[k]? = some (Char.ofNat (65 + k)) := by
  unfold idsUpTo
  rw [List.getElem?_map, List.getElem?_eq_getElem (by rw [List.length_range]; exact hk),
    List.getElem_range]
  rfl

theorem parsed_corrFree (rows cols : Int) (placed : List PlacedWorm) (worms : List Worm)
    (hgood : GoodPlaced rows cols placed)
    (hids : placed.map (fun wd => wd.worm_id) = idsUpTo placed.length)
    (hn : placed.length ≤ 26)
    (hrel : List.Forall₂ (fun (wd : PlacedWorm) (w : Worm) =>
        w.worm_id = wd.worm_id ∧ w.direction = wd.direction ∧ w.head = wd.headPos
          ∧ ∀ p : Pos, p ∈ w.segments ↔ p ∈ wd.segments) placed worms) :
    CorrFree rows cols worms := by
  obtain ⟨hlen, hptw⟩ := List.forall₂_iff_get.mp hrel
  have hid : ∀ (k : Nat) (hk : k < placed.length),
      (placed.get ⟨k, hk⟩).worm_id = Char.ofNat (65 + k) := by
    intro k hk
    have h1 : (placed.map (fun wd => wd.worm_id))[k]? = (idsUpTo placed.length)[k]? := by
      rw [hids]
    rw [List.getElem?_map, List.getElem?_eq_getElem hk, idsUpTo_getElem _ k hk] at h1
    have := Option.some.inj h1
    simpa using this
  intro w hw w2 hw2 hlt p hp hp2
  obtain ⟨i, hi, hieq⟩ := List.mem_iff_getElem.mp hw
  obtain ⟨j, hj, hjeq⟩ := List.mem_iff_getElem.mp hw2
  have hip : i < placed.length := by omega
  have hjp : j < placed.length := by omega
  have hri := hptw i hip hi
  have hrj := hptw j hjp hj
  simp only [List.get_eq_getElem] at hri hrj
  rw [hieq] at hri
  rw [hjeq] at hrj
  have hidi := hid i hip
  have hidj := hid j hjp
  simp only [List.get_eq_getElem] at hidi hidj
  have hji : j < i := by
    rw [hri.1, hrj.1, hidi, hidj] at hlt
    exact (char_id_lt j (by omega) i (by omega)).mp hlt
  have hpw := (List.pairwise_iff_getElem.mp hgood.2 j i hjp hip hji).2
  rw [hri.2.2.1, hri.2.1] at hp
  exact hpw p hp ((hrj.2.2.2 p).mp hp2)

theorem generation_ok_core (rows cols num_worms min_len max_len : Int) (rng : RNG)
    (hn : num_worms ≤ 26)
    (hmsg : (generate_level rows cols num_worms min_len max_len rng).2.2 = "OK") :
    ∃ (placed : List PlacedWorm) (worms : List Worm),
      (generate_level rows cols num_worms min_len max_len rng).1
          = some (mkLevelData rows cols placed)
        ∧ (generate_level rows cols num_worms min_len max_len rng).2.1
            = placed.map (fun wd => wd.worm_id)
        ∧ load_level (mkLevelData rows cols placed)
            = .ok (rows, cols, (mkLevelData rows cols placed).name.getD "Unnamed Level", worms)
        ∧ worms.map Worm.worm_id = placed.map (fun wd => wd.worm_id)
        ∧ CorrFree rows cols worms
        ∧ (worms.map Worm.worm_id).Nodup := by
  simp only [generate_level] at hmsg ⊢
  cases hloop : genLoop rows cols (max (min_len - 1) 0) (max_len - 1) 0
      num_worms.toNat [] [] [] rng with
  | none =>
    rw [hloop] at hmsg
    dsimp only at hmsg
    exact absurd hmsg (by decide)
  | some pr =>
    obtain ⟨placed, rng2⟩ := pr
    rw [hloop] at hmsg
    dsimp only at hmsg ⊢
    by_cases hpe : placed = []
    · rw [if_pos hpe] at hmsg
      dsimp only at hmsg
      exact absurd hmsg (by decide)
    · rw [if_neg hpe] at hmsg ⊢
      dsimp only at hmsg ⊢
      by_cases hfew : (placed.length : Int) < num_worms
      · rw [if_pos hfew] at hmsg
        unfold fewerMsg at hmsg
        have hlen2 := congrArg String.length hmsg
        simp only [String.length_append] at hlen2
        have e1 : "Placed ".length = 7 := by decide
        have e4 : "OK".length = 2 := by decide
        rw [e1, e4] at hlen2
        omega
      · have hgp := genLoop_post rows cols (max (min_len - 1) 0) (max_len - 1)
          num_worms.toNat 0 [] [] [] rng placed rng2 hloop
          ⟨fun wd h => absurd h (List.not_mem_nil wd), List.Pairwise.nil⟩
          (by simp) rfl rfl
        obtain ⟨hgood, hids2, hlenp⟩ := hgp
        have h26 : placed.length ≤ 26 := by omega
        obtain ⟨worms, hload, hrel⟩ := load_level_generated rows cols placed hgood hids2 h26
        have hcf := parsed_corrFree rows cols placed worms hgood hids2 h26 hrel
        have hidseq := parsed_ids_eq placed worms hrel
        have hndw : (worms.map Worm.worm_id).Nodup := by
          rw [hidseq, hids2]
          exact idsUpTo_nodup _ h26
        exact ⟨placed, worms, rfl, rfl, hload, hidseq, hcf, hndw⟩

/-! ## Claim theorems: reverse-construction solvability (C1) and order (C2) -/

/-- C1 (amended): for requested worm counts of at most 26, whenever
generate_level reports full success (message "OK") it returns a layout, and
is_solvable on that layout answers solvable = true.  Without the bound the
claim fails: from the 27th worm on, the assigned ids leave the Latin
alphabet and the parser rejects the generated grid. -/
theorem reverse_generation_solvable (rows cols num_worms min_len max_len : Int) (rng : RNG)
    (hn : num_worms ≤ 26)
    (hmsg : (generate_level rows cols num_worms min_len max_len rng).2.2 = "OK") :
    ∃ ld : LevelData, (generate_level rows cols num_worms min_len max_len rng).1 = some ld
      ∧ solvableVerdict ld = some true := by
  obtain ⟨placed, worms, h1, h2, hload, hidseq, hcf, hndw⟩ :=
    generation_ok_core rows cols num_worms min_len max_len rng hn hmsg
  refine ⟨mkLevelData rows cols placed, h1, ?_⟩
  have hsv := solveLoop_success rows cols (worms.length + 1) worms 0 [] [] []
    (by omega) hndw hcf
  have his : is_solvable (mkLevelData rows cols placed)
      = .ok ((solveLoop (worms.length + 1) worms rows cols 0 [] [] []).1,
             (solveLoop (worms.length + 1) worms rows cols 0 [] [] []).2.1) := by
    unfold is_solvable
    rw [hload]
  unfold solvableVerdict
  rw [his]
  dsimp only
  rw [hsv.1]

/-- C1 counterexample: with 27 requested worms on an 8x8 grid the generator
reports full success ("OK"), but the 27th worm receives the id character
after Z, its head cell is not an uppercase letter, and is_solvable on the
returned layout raises instead of answering solvable = true. -/
theorem generation_ok_not_solvable :
    (generate_level 8 8 27 1 1 rngZero).2.2 = "OK"
      ∧ Option.map solvableVerdict (generate_level 8 8 27 1 1 rngZero).1 = some none := by
  decide

/-- Hypothesis witness for C1 at a fully successful 6x6 run with three
worms. -/
theorem reverse_generation_solvable_witness :
    ((3 : Int) ≤ 26) ∧ (generate_level 6 6 3 2 4 rngZero).2.2 = "OK"
      ∧ ∃ ld : LevelData, (generate_level 6 6 3 2 4 rngZero).1 = some ld
          ∧ solvableVerdict ld = some true :=
  ⟨by decide, by decide,
   reverse_generation_solvable 6 6 3 2 4 rngZero (by decide) (by decide)⟩

/-- C2 (amended): for requested worm counts of at most 26, whenever
generate_level reports full success, the solver's extraction order on the
generated layout is a permutation of the reverse of the generator's
placement order — every placed worm is extracted exactly once — but not
necessarily literally equal to it. -/
theorem extraction_order_perm_reverse (rows cols num_worms min_len max_len : Int) (rng : RNG)
    (hn : num_worms ≤ 26)
    (hmsg : (generate_level rows cols num_worms min_len max_len rng).2.2 = "OK") :
    ∃ (ld : LevelData) (sOrd : List Char),
      (generate_level rows cols num_worms min_len max_len rng).1 = some ld
        ∧ solveOrder ld = some sOrd
        ∧ sOrd.Perm ((generate_level rows cols num_worms min_len max_len rng).2.1).reverse := by
  obtain ⟨placed, worms, h1, h2, hload, hidseq, hcf, hndw⟩ :=
    generation_ok_core rows cols num_worms min_len max_len rng hn hmsg
  have hsv := solveLoop_success rows cols (worms.length + 1) worms 0 [] [] []
    (by omega) hndw hcf
  obtain ⟨-, tail, hord, hperm⟩ := hsv
  refine ⟨mkLevelData rows cols placed,
    (solveLoop (worms.length + 1) worms rows cols 0 [] [] []).2.2.1, h1, ?_, ?_⟩
  · unfold solveOrder solveInternal
    rw [hload]
    rfl
  · rw [hord, List.nil_append, h2]
    refine hperm.trans ?_
    rw [hidseq]
    exact (List.reverse_perm _).symm

/-- C2 counterexample: a fully successful 6x6 run with three worms places
A, B, C but the solver extracts B, C, A (all free worms of a round are
extracted together, sorted by id), which is not the literal reverse
C, B, A of the placement order. -/
theorem extraction_order_not_reverse :
    (generate_level 6 6 3 2 4 rngZero).2.2 = "OK"
      ∧ (generate_level 6 6 3 2 4 rngZero).2.1 = ['A', 'B', 'C']
      ∧ (generate_level 6 6 3 2 4 rngZero).1 = some c2GenLevel
      ∧ solveOrder c2GenLevel = some ['B', 'C', 'A']
      ∧ (['B', 'C', 'A'] : List Char) ≠ (['A', 'B', 'C'] : List Char).reverse :=
  ⟨by decide, by decide, by decide, by decide, by decide⟩

/-- Hypothesis witness for C2 at a fully successful 6x6 run with three
worms. -/
theorem extraction_order_perm_reverse_witness :
    ((3 : Int) ≤ 26) ∧ (generate_level 6 6 3 2 4 rngZero).2.2 = "OK"
      ∧ ∃ (ld : LevelData) (sOrd : List Char),
          (generate_level 6 6 3 2 4 rngZero).1 = some ld
            ∧ solveOrder ld = some sOrd
            ∧ sOrd.Perm ((generate_level 6 6 3 2 4 rngZero).2.1).reverse :=
  ⟨by decide, by decide,
   extraction_order_perm_reverse 6 6 3 2 4 rngZero (by decide) (by decide)⟩

end WormEscape
